import Mathlib

/-!
Shallow embedding of `src/Mod/BIM/ArchCommands.py` (FreeCAD BIM workbench
utility module) and proofs about its documented behaviour.

The module is glue over an external geometry kernel and a document-object
graph.  Pure bookkeeping (string building, list manipulation, branch
structure) is translated directly; kernel calls (face construction, boolean
cut, angle/length measurement, bounding-box/plane tests) are modelled either
symbolically (inductive shape terms recording exactly which kernel call the
code makes) or as oracle function parameters, so every definition stays
executable.  Coordinates are rational numbers; document objects are records
whose `id` field models Python object identity (the `==` used by
`list.remove` and `in` on document objects).

The file is organised as: all definitions first, then all theorems.
-/

namespace ArchCommands

/-- FreeCAD.Vector with rational coordinates. -/
structure Vec where
  x : ℚ
  y : ℚ
  z : ℚ
deriving DecidableEq, Repr

/-- Vector.sub. -/
def Vec.sub (a b : Vec) : Vec := ⟨a.x - b.x, a.y - b.y, a.z - b.z⟩

/-- Vector.add. -/
def Vec.add (a b : Vec) : Vec := ⟨a.x + b.x, a.y + b.y, a.z + b.z⟩

/-- Vector.negative. -/
def Vec.neg (a : Vec) : Vec := ⟨-a.x, -a.y, -a.z⟩

/-- Vector.cross (used for `v = u.cross(ax)` in getCutVolume). -/
def Vec.cross (a b : Vec) : Vec :=
  ⟨a.y * b.z - a.z * b.y, a.z * b.x - a.x * b.z, a.x * b.y - a.y * b.x⟩

/-- Python round(q, 4): round to four decimal places (used by
getExtrusionData on angles). -/
def round4 (q : ℚ) : ℚ := (round (q * 10000) : ℤ) / 10000

/-! ## getStringList (lines 57-66) -/

namespace StrList

/-- A document object as seen by getStringList: only its Name is read. -/
structure SObj where
  Name : String
deriving DecidableEq, Repr

/-- Embedding of getStringList: starts from "[", prepends a comma before
every item except when the accumulated string is still just "[", appends
"FreeCAD.ActiveDocument." ++ Name per object, closes with "]". -/
def getStringList (objects : List SObj) : String :=
  let result := "["
  let result := objects.foldl
    (fun result o =>
      (if result.length > 1 then result ++ "," else result)
        ++ "FreeCAD.ActiveDocument." ++ o.Name)
    result
  result ++ "]"

/-- Claim-side description of one item of the output list. -/
def item (o : SObj) : String := "FreeCAD.ActiveDocument." ++ o.Name

/-- Claim-side description of the tail of the output: each further
item preceded by a single comma. -/
def joinTail : List SObj → String
  | [] => ""
  | o :: rest => "," ++ item o ++ joinTail rest

/-- Claim-side expected output string: "[]" for the empty list, otherwise
the items in input order separated by single commas, in brackets. -/
def specString : List SObj → String
  | [] => "[]"
  | o :: rest => "[" ++ item o ++ joinTail rest ++ "]"

end StrList

/-! ## makeFace (lines 330-385) -/

namespace MkFace

/-- A Part.Wire as read by makeFace: `id` models Python object identity
(list.remove uses default object equality), `vertexCount` models
len(w.Vertexes), `diagonalLength` models w.BoundBox.DiagonalLength, and
`rev` is an orientation bit flipped by w.reverse(). -/
structure Wire where
  id : Nat
  vertexCount : Nat
  diagonalLength : ℚ
  rev : Bool
deriving DecidableEq, Repr

/-- Wire.reverse() flips the wire orientation in place. -/
def Wire.reverse (w : Wire) : Wire := ⟨w.id, w.vertexCount, w.diagonalLength, !w.rev⟩

/-- Symbolic record of the Part kernel calls makeFace performs:
Part.Face on one wire, Part.Face on a wire list, and Face.cut. -/
inductive PFace
  | ofWire (w : Wire)
  | ofWires (ws : List Wire)
  | cut (a b : PFace)
deriving DecidableEq, Repr

/-- The argument of makeFace: a single wire (non-list) or a wire list. -/
inductive WiresArg
  | single (w : Wire)
  | list (ws : List Wire)

/-- One step of the exterior-wire scan: keep (max_length, ext) and replace
them when w.BoundBox.DiagonalLength > max_length. -/
def extStep (acc : ℚ × Option Wire) (w : Wire) : ℚ × Option Wire :=
  if acc.1 < w.diagonalLength then (w.diagonalLength, some w) else acc

/-- The exterior-wire selection loop of makeFace, starting from
max_length = 0 and ext = None. -/
def selectExterior (ws : List Wire) : Option Wire :=
  (ws.foldl extStep ((0 : ℚ), none)).2

/-- Method-2 hole cutting: a face on the exterior wire, from which each
hole face is cut in turn (mf = mf.cut(Part.Face(w))). -/
def holeCut (ext : Wire) (holes : List Wire) : PFace :=
  holes.foldl (fun mf w => PFace.cut mf (.ofWire w)) (.ofWire ext)

/-- Embedding of makeFace.  `facesOf` is the kernel oracle for the
`.Faces` property of a shape; `removeInterVertices` models
DraftGeomUtils.removeInterVertices (only used when cleanup is true).
A bare Python `raise` (degenerate wire), `wires.remove(None)` when no
wire has positive diagonal, and the IndexError of `mf.Faces[0]` on an
empty face list are all modelled as `.error ()`. -/
def makeFace (facesOf : PFace → List PFace) (removeInterVertices : Wire → Wire)
    (wires : WiresArg) (method : Nat) (cleanup : Bool) : Except Unit PFace :=
  match wires with
  | .single w => if w.vertexCount < 3 then .error () else .ok (.ofWire w)
  | .list [w] => if w.vertexCount < 3 then .error () else .ok (.ofWire w)
  | .list ws0 =>
    let ws := if cleanup then ws0.map removeInterVertices else ws0
    match selectExterior ws with
    | none => .error ()
    | some ext =>
      let rest := ws.eraseP (fun w => w == ext)
      if method = 1 then
        .ok (.ofWires (ext :: rest.map Wire.reverse))
      else
        match facesOf (holeCut ext rest) with
        | [] => .error ()
        | f :: _ => .ok f

end MkFace

/-! ## getExtrusionData (lines 1275-1355) -/

namespace Extrusion

/-- A Part.Face as read by getExtrusionData: `hash` models f.hashCode(),
`normalAt` models f.normalAt(0,0) (none when the kernel raises
Part.OCCError), plus the center of mass and area properties. -/
structure EFace where
  hash : Nat
  normalAt : Option Vec
  centerOfMass : Vec
  area : ℚ
deriving DecidableEq, Repr

/-- The shape argument of getExtrusionData: isNull flag, number of solids
(`not shape.Solids` is `solidCount = 0`), and face list. -/
structure EShape where
  isNull : Bool
  solidCount : Nat
  faces : List EFace
deriving DecidableEq, Repr

/-- The sortmethod argument: the strings "area" and "z", or a 3D vector. -/
inductive SortMethod
  | area
  | z
  | vec (v : Vec)
deriving DecidableEq, Repr

/-- The faces-with-normals loop: pair each face with its normal, failing
(None) as soon as normalAt raises. -/
def facesWithNormals (s : EShape) : Option (List (EFace × Vec)) :=
  s.faces.mapM (fun f => f.normalAt.map (fun n => (f, n)))

/-- The double loop collecting pairs with distinct hash codes whose normals
are at an angle that rounds to 3.1416 (both orders are collected, as in the
source's enumerate-enumerate loop; elements stand in for the source's index
pairs, which index exactly these elements). `ga` is the kernel oracle for
Vector.getAngle. -/
def oppositePairs (ga : Vec → Vec → ℚ) (fs : List (EFace × Vec)) :
    List ((EFace × Vec) × (EFace × Vec)) :=
  fs.flatMap (fun f1 => fs.filterMap (fun f2 =>
    if f1.1.hash ≠ f2.1.hash ∧ round4 (ga f1.2 f2.2) = 3.1416
    then some (f1, f2) else none))

/-- The validity check on a pair: every face whose hash code is outside the
pair must have a normal at an angle rounding to 1.5708 from the pair's
first normal. -/
def perpOk (ga : Vec → Vec → ℚ) (fs : List (EFace × Vec))
    (p : (EFace × Vec) × (EFace × Vec)) : Bool :=
  fs.all (fun f =>
    (f.1.hash == p.1.1.hash || f.1.hash == p.2.1.hash)
    || (round4 (ga f.2 p.1.2) == 1.5708))

/-- From a valid pair, prefer the face with the lowest center-of-mass z as
base and use the other center of mass minus the base center of mass as the
extrusion vector. -/
def lowZPick (p : (EFace × Vec) × (EFace × Vec)) : EFace × Vec :=
  if p.1.1.centerOfMass.z < p.2.1.centerOfMass.z then
    (p.1.1, (p.2.1.centerOfMass).sub p.1.1.centerOfMass)
  else
    (p.2.1, (p.1.1.centerOfMass).sub p.2.1.centerOfMass)

/-- The valids list: every collected pair that passes the
all-other-normals-perpendicular check, reduced to [base face, vector]. -/
def validCandidates (ga : Vec → Vec → ℚ) (fs : List (EFace × Vec))
    (pairs : List ((EFace × Vec) × (EFace × Vec))) : List (EFace × Vec) :=
  pairs.filterMap (fun p => if perpOk ga fs p then some (lowZPick p) else none)

/-- The sort key of valids.sort: center-of-mass z for "z", face area for
"area", distance from the given point otherwise (`vlen` is the kernel
oracle for Vector.Length). -/
def sortKey (vlen : Vec → ℚ) (sm : SortMethod) (c : EFace × Vec) : ℚ :=
  match sm with
  | .z => c.1.centerOfMass.z
  | .area => c.1.area
  | .vec v => vlen ((c.1.centerOfMass).sub v)

/-- Boolean comparison used for the stable ascending sort of valids. -/
def leKey (vlen : Vec → ℚ) (sm : SortMethod) (a b : EFace × Vec) : Bool :=
  decide (sortKey vlen sm a ≤ sortKey vlen sm b)

/-- Embedding of getExtrusionData.  `ga` and `vlen` are the kernel oracles
for Vector.getAngle and Vector.Length. -/
def getExtrusionData (ga : Vec → Vec → ℚ) (vlen : Vec → ℚ)
    (shape : EShape) (sortmethod : SortMethod) : Option (EFace × Vec) :=
  if shape.isNull then none
  else if shape.solidCount = 0 then none
  else if shape.faces.length < 3 then none
  else
    match facesWithNormals shape with
    | none => none
    | some fs =>
      let pairs := oppositePairs ga fs
      if pairs = [] then none
      else
        let valids := validCandidates ga fs pairs
        if valids = [] then none
        else
          match valids.mergeSort (leKey vlen sortmethod) with
          | [] => none
          | v :: _ => some v

/-- Concrete getAngle oracle for witnesses: 0 for equal vectors, 1.5708 for
vectors with zero dot product, 3.1416 otherwise. -/
def ga0 : Vec → Vec → ℚ := fun a b =>
  if a = b then 0
  else if a.x * b.x + a.y * b.y + a.z * b.z = 0 then 1.5708
  else 3.1416

/-- Concrete Length oracle for witnesses: squared euclidean length. -/
def vlen0 : Vec → ℚ := fun v => v.x * v.x + v.y * v.y + v.z * v.z

/-- Witness face: bottom of a box (normal -z pointing convention aside). -/
def wf1 : EFace := ⟨1, some ⟨0, 0, 1⟩, ⟨0, 0, 0⟩, 4⟩

/-- Witness face: top of a box, opposite normal, higher center of mass. -/
def wf2 : EFace := ⟨2, some ⟨0, 0, -1⟩, ⟨0, 0, 10⟩, 4⟩

/-- Witness face: a side of the box, perpendicular normal. -/
def wf3 : EFace := ⟨3, some ⟨1, 0, 0⟩, ⟨1, 0, 5⟩, 7⟩

/-- Witness shape: not null, one solid, three faces. -/
def wshape : EShape := ⟨false, 1, [wf1, wf2, wf3]⟩

/-- The faces-with-normals list of the witness shape. -/
def wfs : List (EFace × Vec) :=
  [(wf1, ⟨0, 0, 1⟩), (wf2, ⟨0, 0, -1⟩), (wf3, ⟨1, 0, 0⟩)]

end Extrusion

/-! ## getCutVolume (lines 415-494) -/

namespace CutVol

/-- FreeCAD.BoundBox with the operations getCutVolume uses. -/
structure BB where
  xMin : ℚ
  xMax : ℚ
  yMin : ℚ
  yMax : ℚ
  zMin : ℚ
  zMax : ℚ
deriving DecidableEq, Repr

/-- BoundBox.add(other): enlarge to contain the other box. -/
def BB.add (a b : BB) : BB :=
  ⟨min a.xMin b.xMin, max a.xMax b.xMax, min a.yMin b.yMin, max a.yMax b.yMax,
   min a.zMin b.zMin, max a.zMax b.zMax⟩

/-- BoundBox.enlarge(d): grow by d in every direction. -/
def BB.enlarge (b : BB) (d : ℚ) : BB :=
  ⟨b.xMin - d, b.xMax + d, b.yMin - d, b.yMax + d, b.zMin - d, b.zMax + d⟩

/-- A shape of the shapes list: only its BoundBox is read. -/
structure GShape where
  boundBox : BB
deriving DecidableEq, Repr

/-- The plane face p extracted from the cut plane: center of mass, normal
at (0,0), and `uDir`, the normalised in-plane direction the source computes
as p.valueAt(uMin,0).sub(p.valueAt(uMax,0)).normalize() (surface evaluation
and normalisation are kernel calls, so the resulting direction is carried
as a field). -/
structure PlaneFace where
  centerOfMass : Vec
  normalAt : Vec
  uDir : Vec
deriving DecidableEq, Repr

/-- The cutplane argument, taken as a shape: its face list and whether
copy() raises Part.OCCError (the caught geometry-kernel failure of the
`p = cutplane.copy().Faces[0]` extraction). -/
structure CutPlane where
  faces : List PlaneFace
  copyFails : Bool
deriving DecidableEq, Repr

/-- Kernel/vector-library oracles used by getCutVolume:
DraftVecUtils.project, Vector.Length, DraftVecUtils.scaleTo and
BoundBox.isCutPlane. -/
structure GeomOps where
  project : Vec → Vec → Vec
  vlen : Vec → ℚ
  scaleTo : Vec → ℚ → Vec
  isCutPlane : BB → Vec → Vec → Bool

/-- Symbolic record of the Part kernel calls getCutVolume performs:
polygon face from points, the extracted plane face, extrusion, boolean
cut, fuse, and removeSplitter. -/
inductive KShape
  | face (pts : List Vec)
  | plane (p : PlaneFace)
  | extrude (s : KShape) (v : Vec)
  | cut (a b : KShape)
  | fuse (a b : KShape)
  | removeSplitter (s : KShape)
deriving DecidableEq, Repr

/-- Claim-side test: is this shape literally an extrusion of that one? -/
def KShape.isExtrudeOf : KShape → KShape → Bool
  | .extrude s _, f => s == f
  | _, _ => false

/-- The eight corners of the bounding box, in source order. -/
def corners (bb : BB) : List Vec :=
  [⟨bb.xMin, bb.yMin, bb.zMin⟩, ⟨bb.xMin, bb.yMax, bb.zMin⟩,
   ⟨bb.xMax, bb.yMin, bb.zMin⟩, ⟨bb.xMax, bb.yMax, bb.zMin⟩,
   ⟨bb.xMin, bb.yMin, bb.zMax⟩, ⟨bb.xMin, bb.yMax, bb.zMax⟩,
   ⟨bb.xMax, bb.yMin, bb.zMax⟩, ⟨bb.xMax, bb.yMax, bb.zMax⟩]

/-- The enlarged common bounding box of the shapes list. -/
def shapesBB (s0 : GShape) (rest : List GShape) : BB :=
  (rest.foldl (fun b sh => b.add sh.boundBox) s0.boundBox).enlarge 1

/-- The corner loop computing the in-plane and normal half-extents
(um, vm, wm): maxima over the corners of the lengths of the projections of
corner - center on u, v and the normal. -/
def uvwMax (g : GeomOps) (bb : BB) (ce u v ax : Vec) : ℚ × ℚ × ℚ :=
  (corners bb).foldl
    (fun acc c =>
      let dv := c.sub ce
      (max acc.1 (g.vlen (g.project dv u)),
       max acc.2.1 (g.vlen (g.project dv v)),
       max acc.2.2 (g.vlen (g.project dv ax))))
    ((0 : ℚ), (0 : ℚ), (0 : ℚ))

/-- The rectangular cut face: polygon p1 p2 p3 p4 p1 from the scaled
in-plane directions around the center of mass. -/
def cutFacePoly (g : GeomOps) (ce u v : Vec) (um vm : ℚ) : KShape :=
  let vu := g.scaleTo u um
  let vui := vu.neg
  let vv := g.scaleTo v vm
  let vvi := vv.neg
  KShape.face [ce.add (vu.add vvi), ce.add (vu.add vv),
    ce.add (vui.add vv), ce.add (vui.add vvi), ce.add (vu.add vvi)]

/-- The clip branch: the inverse volume is replaced by the extruded plane
face, the cut volume is fused with the border volume and cleaned, and the
returned cut face becomes the plane face itself. -/
def clipAdjust (p : PlaneFace) (base : KShape × KShape × KShape) (cn2 : Vec) :
    KShape × KShape × KShape :=
  let extrudedplane := KShape.extrude (KShape.plane p) cn2
  let bordervolume := KShape.cut base.2.2 extrudedplane
  (KShape.plane p,
   KShape.removeSplitter (KShape.fuse base.2.1 bordervolume),
   extrudedplane)

/-- The depth branch (entered when depth is a non-zero number): the cut
volume is fused with the depth-clip volume and cleaned. -/
def depthAdjust (g : GeomOps) (res : KShape × KShape × KShape)
    (depth : Option ℚ) (cn2 : Vec) : KShape × KShape × KShape :=
  match depth with
  | some d =>
    if d ≠ 0 then
      let depthnormal := g.scaleTo cn2 d
      let depthvolume := KShape.extrude res.1 depthnormal
      let depthclipvolume := KShape.cut res.2.2 depthvolume
      (res.1,
       KShape.removeSplitter (KShape.fuse res.2.1 depthclipvolume),
       res.2.2)
    else res
  | none => res

/-- Embedding of getCutVolume.  Shapes are taken as a list (the source
wraps a single shape into a list); the cut plane as a shape with faces.
The triple (None, None, None) is modelled as `none`.  In the success case
ce, ax, u, v of the source are p.centerOfMass, p.normalAt, p.uDir and
p.uDir.cross p.normalAt. -/
def getCutVolume (g : GeomOps) (cutplane : CutPlane) (shapes : List GShape)
    (clip : Bool) (depth : Option ℚ) : Option (KShape × KShape × KShape) :=
  match shapes with
  | [] => none
  | s0 :: rest =>
    if cutplane.faces = [] then none
    else
      let bb := shapesBB s0 rest
      if cutplane.copyFails then none
      else
        match cutplane.faces with
        | [] => none
        | p :: _ =>
          if g.isCutPlane bb p.centerOfMass p.normalAt = false then none
          else
            let uvw := uvwMax g bb p.centerOfMass p.uDir
              (p.uDir.cross p.normalAt) p.normalAt
            let cutface := cutFacePoly g p.centerOfMass p.uDir
              (p.uDir.cross p.normalAt) uvw.1 uvw.2.1
            let cutnormal := g.scaleTo p.normalAt uvw.2.2
            let base := (cutface, KShape.extrude cutface cutnormal,
              KShape.extrude cutface cutnormal.neg)
            let res := if clip then clipAdjust p base cutnormal.neg else base
            some (depthAdjust g res depth cutnormal.neg)

/-- Concrete oracle set for the C4 counterexample and witness: projection
returns its argument, lengths are 1, scaleTo keeps the vector, every box is
cut by every plane. -/
def g0 : GeomOps :=
  ⟨fun dv _ => dv, fun _ => 1, fun v _ => v, fun _ _ _ => true⟩

/-- Concrete plane face for the C4 counterexample and witness. -/
def pf0 : PlaneFace := ⟨⟨0, 0, 0⟩, ⟨0, 0, 1⟩, ⟨1, 0, 0⟩⟩

/-- Concrete cut plane for the C4 counterexample and witness. -/
def cp0 : CutPlane := ⟨[pf0], false⟩

/-- Concrete shape for the C4 counterexample and witness. -/
def sh0 : GShape := ⟨⟨0, 1, 0, 1, 0, 1⟩⟩

/-- The (um, vm, wm) extents of the C4 witness input. -/
def wUVW : ℚ × ℚ × ℚ :=
  uvwMax g0 (shapesBB sh0 []) pf0.centerOfMass pf0.uDir
    (pf0.uDir.cross pf0.normalAt) pf0.normalAt

/-- The cut face of the C4 witness input. -/
def wCF : KShape :=
  cutFacePoly g0 pf0.centerOfMass pf0.uDir (pf0.uDir.cross pf0.normalAt)
    wUVW.1 wUVW.2.1

/-- The cut normal of the C4 witness input. -/
def wCN : Vec := g0.scaleTo pf0.normalAt wUVW.2.2

end CutVol

/-! ## meshToShape (lines 590-613), over getShapeFromMesh (lines 496-570) -/

namespace MeshConv

/-- An opaque mesh value (obj.Mesh). -/
structure Mesh where
  mid : Nat
deriving DecidableEq, Repr

/-- The shape produced by getShapeFromMesh, as read by meshToShape:
isClosed(), isValid() and an identity. -/
structure MSolid where
  isClosed : Bool
  isValid : Bool
  sid : Nat
deriving DecidableEq, Repr

/-- A document object as meshToShape creates and stores them: name,
type id, optional shape, optional view-object shape color. -/
structure DObj where
  Name : String
  typeId : String
  shape : Option MSolid
  shapeColor : Option (ℚ × ℚ × ℚ × ℚ)
deriving DecidableEq, Repr

/-- The argument object of meshToShape: its name, its PropertiesList and
its Mesh property (read only after the "Mesh" membership test, as in the
source). -/
structure MObj where
  Name : String
  props : List String
  mesh : Mesh
deriving DecidableEq, Repr

/-- The active document: its object list. -/
structure Doc where
  objects : List DObj
deriving DecidableEq, Repr

/-- FreeCAD.ActiveDocument.removeObject(name). -/
def Doc.removeObject (d : Doc) (n : String) : Doc :=
  ⟨d.objects.filter (fun o => o.Name != n)⟩

/-- FreeCAD.ActiveDocument.addObject: appends the new object (the host
renames on collision; name collisions do not occur when the original
holder of the name was removed, the situation of the claim). -/
def Doc.addObject (d : Doc) (o : DObj) : Doc :=
  ⟨d.objects ++ [o]⟩

/-- Embedding of meshToShape.  `gsfm` abstracts getShapeFromMesh with the
fixed (fast, tol, flat, cut) arguments applied, returning none both for a
None return and for a falsy (empty) shape.  The red coloring that the
source applies to the new object after insertion is applied before
insertion here; the resulting document state is the same. -/
def meshToShape (gsfm : Mesh → Option MSolid) (doc : Doc) (obj : MObj)
    (mark : Bool) : Doc × Option DObj :=
  if "Mesh" ∈ obj.props then
    match gsfm obj.mesh with
    | some solid =>
      let doc1 := if solid.isClosed && solid.isValid
        then doc.removeObject obj.Name else doc
      let newobj : DObj :=
        if (!solid.isClosed || !solid.isValid) && mark
        then ⟨obj.Name, "Part::Feature", some solid, some (1, 0, 0, 1)⟩
        else ⟨obj.Name, "Part::Feature", some solid, none⟩
      (doc1.addObject newobj, some newobj)
    | none => (doc, none)
  else (doc, none)

end MeshConv

/-! ## pruneIncluded (lines 758-810) -/

namespace Prune

/-- A parent object (an entry of obj.InList) with the attributes the
parent loop of pruneIncluded inspects.  `baseFeature` and `host` are the
referenced object's id (none for an absent attribute or a None value);
`hosts` is none when the Hosts attribute is absent; `cloneOf` is none when
the CloneOf attribute is absent, some none when it is None, and
some (some name) when it references an object of that name.  TypeId exists
on every document object. -/
structure PParent where
  id : Nat
  isPartFeature : Bool
  isPart2D : Bool
  ptype : String
  isPDFeatureBase : Bool
  isPDBody : Bool
  baseFeature : Option Nat
  isPDSubShapeBinder : Bool
  typeId : String
  host : Option Nat
  hosts : Option (List Nat)
  cloneOf : Option (Option String)
deriving DecidableEq, Repr

/-- An object of the pruneIncluded input list. -/
structure PObj where
  id : Nat
  name : String
  isPartFeature : Bool
  otype : String
  inList : List PParent
deriving DecidableEq, Repr

/-- One parent of the loop: true when the parent leaves toplevel alone
(one of the pass branches applies, or the CloneOf clone refers back to the
object itself), false when the parent forces toplevel to False. -/
def parentKeeps (obj : PObj) (parent : PParent) : Bool :=
  if !parent.isPartFeature then true
  else if parent.isPart2D then true
  else if parent.ptype ∈ ["BezCurve", "BSpline", "Clone", "Facebinder", "Wire",
      "Project", "Roof", "Site", "Space", "Window"] then true
  else if parent.isPDFeatureBase then true
  else if parent.isPDBody && parent.baseFeature == some obj.id then true
  else if parent.isPDSubShapeBinder || parent.typeId == "PartDesign::ShapeBinder"
    then true
  else if parent.host == some obj.id then true
  else if (match parent.hosts with
           | some hs => hs.contains obj.id
           | none => false) then true
  else if parent.typeId == "Part::Mirroring" then true
  else
    match parent.cloneOf with
    | some (some nm) => nm == obj.name
    | some none => false
    | none => false

/-- The parent loop computing toplevel for one object: each parent may
force toplevel to False, and in strict mode a parent outside the selection
and the accumulated newlist resets it to True. -/
def toplevelAfterParents (strict : Bool) (objIds : List Nat) (newIds : List Nat)
    (obj : PObj) : Bool :=
  obj.inList.foldl
    (fun tl parent =>
      let tl := if parentKeeps obj parent then tl else false
      if tl = false ∧ strict = true ∧ parent.id ∉ objIds ∧ parent.id ∉ newIds
      then true else tl)
    true

/-- One iteration of pruneIncluded: append obj to newlist when it is
toplevel.  Objects not derived from Part::Feature, and objects of type
Window, Clone, Pipe, Rebar or Roof, never enter the parent loop. -/
def pruneStep (objectslist : List PObj) (strict : Bool)
    (newlist : List PObj) (obj : PObj) : List PObj :=
  let toplevel :=
    if obj.isPartFeature then
      if obj.otype ∉ ["Window", "Clone", "Pipe", "Rebar", "Roof"] then
        toplevelAfterParents strict (objectslist.map (fun o => o.id))
          (newlist.map (fun o => o.id)) obj
      else true
    else true
  if toplevel then newlist ++ [obj] else newlist

/-- Embedding of pruneIncluded (the silent flag only suppresses a console
warning and does not affect the result). -/
def pruneIncluded (objectslist : List PObj) (strict : Bool) : List PObj :=
  objectslist.foldl (pruneStep objectslist strict) []

end Prune

/-! ## addComponents (lines 95-139) and removeComponents (lines 141-204) -/

namespace Comp

/-- A document object as the component functions read and mutate it:
`id` models object identity, `otype` is Draft.getType(o), `hasShape` is
hasattr(o, "Shape"), `hosts` is o.Hosts (none when the attribute is
absent), `isValidPath` is DraftGeomUtils.isValidPath(o.Shape),
`attachmentSupport` is o.AttachmentSupport resolved to the supporting
object's id (the source unpacks a tuple or list first; none covers an
absent attribute and a None value), and `baseSupport` is the same datum
for o.Base (none when o.Base is absent or falsy). -/
structure CObj where
  id : Nat
  otype : String
  hasShape : Bool
  hosts : Option (List Nat)
  isValidPath : Bool
  attachmentSupport : Option Nat
  baseSupport : Option (Option Nat)
deriving DecidableEq, Repr

/-- A host object: type string, Additions/Subtractions (ids), Axes (none
when the attribute is absent), Tool (with an explicit attribute-existence
flag), the Objects property of a SectionPlane, the group children used by
addObject, and whether the host derives from App::DocumentObjectGroup. -/
structure CHost where
  id : Nat
  htype : String
  additions : List Nat
  subtractions : List Nat
  axes : Option (List Nat)
  hasToolAttr : Bool
  tool : Option Nat
  objectsProp : List Nat
  group : List Nat
  isGroupDerived : Bool
deriving DecidableEq, Repr

/-- The host types that receive components through host.addObject. -/
def groupTypes : List String :=
  ["Floor", "Building", "Site", "Project", "BuildingPart"]

/-- The host types that receive components through Additions and holes
through Subtractions. -/
def componentTypes : List String :=
  ["Wall", "CurtainWall", "Structure", "Precast", "Window", "Roof", "Stairs",
   "StructuralSystem", "Panel", "Component", "Pipe"]

/-- The condition under which an object of the addComponents loop becomes
host.Tool: it has a shape, it is not a Window, its shape is a valid path
and the host is a Structure or Precast. -/
def pathKind (host : CHost) (o : CObj) : Bool :=
  o.hasShape && !(o.otype == "Window") && o.isValidPath
    && decide (host.htype ∈ ["Structure", "Precast"])

/-- One iteration of the addComponents loop over (a, x, tool, processed
objects in reverse).  An Axis object when the host has no Axes attribute
is the source's NameError on the never-assigned local x, modelled as an
error.  The inner hasattr(o, "Shape") of the final branch is subsumed by
the outer one.  (The redundant inner check is kept out of the model.) -/
def addStep (host : CHost) (acc : List Nat × Option (List Nat) × Option Nat × List CObj)
    (o : CObj) : Except Unit (List Nat × Option (List Nat) × Option Nat × List CObj) :=
  let (a, x, tool, objs) := acc
  if o.hasShape then
    if o.otype = "Window" then
      match o.hosts with
      | some g =>
        if host.id ∈ g then .ok (a, x, tool, o :: objs)
        else .ok (a, x, tool, { o with hosts := some (g ++ [host.id]) } :: objs)
      | none => .ok (a, x, tool, o :: objs)
    else if o.isValidPath ∧ host.htype ∈ ["Structure", "Precast"] then
      let o2 := if o.attachmentSupport = some host.id
        then { o with attachmentSupport := none } else o
      .ok (a, x, some o2.id, o2 :: objs)
    else if o.otype = "Axis" then
      match x with
      | some xs =>
        if o.id ∈ xs then .ok (a, x, tool, o :: objs)
        else .ok (a, some (xs ++ [o.id]), tool, o :: objs)
      | none => .error ()
    else if o.id ∈ a then .ok (a, x, tool, o :: objs)
    else .ok (a ++ [o.id], x, tool, o :: objs)
  else .ok (a, x, tool, o :: objs)

/-- Embedding of addComponents.  The returned list holds the (possibly
mutated) objects of objectsList in order; host.addObject on group-like
hosts is modelled as appending to the group children. -/
def addComponents (objectsList : List CObj) (host : CHost) :
    Except Unit (CHost × List CObj) :=
  if host.htype ∈ groupTypes then
    .ok ({ host with group := host.group ++ objectsList.map (fun o => o.id) },
      objectsList)
  else if host.htype ∈ componentTypes then
    match objectsList.foldlM (addStep host)
        (host.additions, host.axes, host.tool, []) with
    | .error e => .error e
    | .ok (a, x, tool, objs) =>
      let host1 := { host with tool := tool, additions := a }
      let host2 := match x with
        | some xs => { host1 with axes := some xs }
        | none => host1
      .ok (host2, objs.reverse)
  else if host.htype = "SectionPlane" then
    let ops := objectsList.foldl
      (fun acc o => if o.id ∈ acc then acc else acc ++ [o.id]) host.objectsProp
    .ok ({ host with objectsProp := ops }, objectsList)
  else if host.isGroupDerived then
    .ok ({ host with group := host.group ++ objectsList.map (fun o => o.id) },
      objectsList)
  else .ok (host, objectsList)

/-- One iteration of the removeComponents subtraction loop over (s,
processed objects in reverse): a Window receives the host in its Hosts
list, any other object not already in s is appended to s and has its (and
its Base's) AttachmentSupport cleared when that support is the host
itself; setAsSubcomponent only changes the view layer and is not part of
the document state modelled here. -/
def rmStep (host : CHost) (acc : List Nat × List CObj) (o : CObj) :
    List Nat × List CObj :=
  let (s, objs) := acc
  if o.otype = "Window" then
    match o.hosts with
    | some g =>
      if host.id ∈ g then (s, o :: objs)
      else (s, { o with hosts := some (g ++ [host.id]) } :: objs)
    | none => (s, o :: objs)
  else if o.id ∈ s then (s, o :: objs)
  else
    let o2 := if o.attachmentSupport = some host.id
      then { o with attachmentSupport := none } else o
    let o3 := match o2.baseSupport with
      | some bs => if bs = some host.id
          then { o2 with baseSupport := some none } else o2
      | none => o2
    (s ++ [o.id], o3 :: objs)

/-- One iteration of the Axes filtering loop of removeComponents: an
object found in the current local Axes copy is removed both from that
copy and from the remaining objectsList. -/
def axStep (pr : List Nat × List CObj) (o : CObj) : List Nat × List CObj :=
  if o.id ∈ pr.1 then (pr.1.erase o.id, pr.2.eraseP (fun q => q.id == o.id))
  else pr

/-- The Axes filtering loop of removeComponents: objects found in the
local copy a of host.Axes are removed both from a and from objectsList
(the source iterates over a copy of the list while mutating it).  The
mutated a is never written back into host.Axes by the source — list
properties hand out fresh copies, and the `host.Axes = a` reassignment
present at every other property site of the file is absent here — so
only the second component (the surviving objectsList) affects the
document; the first component matters only to the loop's own later
membership tests. -/
def axesFilter (ax : List Nat) (objectsList : List CObj) :
    List Nat × List CObj :=
  objectsList.foldl axStep (ax, objectsList)

/-- Embedding of removeComponents with a host object (the hostless branch,
which detaches objects from their parents, is outside the claims and not
modelled).  Reading objectsList[0] on an empty list (host with a Tool
attribute) is the source's IndexError, modelled as an error.  The Axes
loop filters a local copy of host.Axes without reassigning the property,
so the returned host keeps its axes field unchanged; the filtering only
decides which objects survive into the subtraction loop. -/
def removeComponents (objectsList : List CObj) (host : CHost) :
    Except Unit (CHost × List CObj) :=
  if host.htype ∈ componentTypes then
    match (if host.hasToolAttr then
            match objectsList with
            | [] => none
            | o0 :: _ =>
              some (if host.tool = some o0.id then none else host.tool)
          else some host.tool) with
    | none => .error ()
    | some tool1 =>
      let kept := match host.axes with
        | some ax => (axesFilter ax objectsList).2
        | none => objectsList
      let sobjs := kept.foldl (rmStep host) (host.subtractions, [])
      let host1 := { host with tool := tool1, subtractions := sobjs.1 }
      .ok (host1, sobjs.2.reverse)
  else if host.htype = "SectionPlane" then
    let ops := objectsList.foldl (fun acc o => acc.erase o.id) host.objectsProp
    .ok ({ host with objectsProp := ops }, objectsList)
  else .ok (host, objectsList)

/-- Witness host of a group-like type. -/
def cHostFloor : CHost := ⟨1, "Floor", [], [], none, false, none, [], [], false⟩

/-- Witness host of a component type with an Axes and a Tool attribute. -/
def cHostS : CHost := ⟨1, "Structure", [], [], some [], true, none, [], [], false⟩

/-- Witness object: a plain shape-bearing object. -/
def cObjP : CObj := ⟨10, "Wall", true, none, false, none, none⟩

/-- Witness object: a window with an empty Hosts list. -/
def cObjW : CObj := ⟨11, "Window", true, some [], false, none, none⟩

/-- The witness window after receiving the host. -/
def cObjW2 : CObj := ⟨11, "Window", true, some [1], false, none, none⟩

/-- The witness component host after addComponents. -/
def cHostS2 : CHost :=
  ⟨1, "Structure", [10], [], some [], true, none, [], [], false⟩

/-- Witness host for removeComponents: its Tool is the first object and
its Axes contain the third object. -/
def cHostR : CHost := ⟨1, "Wall", [], [], some [12], true, some 10, [], [], false⟩

/-- Witness object found in the host Axes. -/
def cObjA : CObj := ⟨12, "Wall", true, none, false, none, none⟩

/-- The witness removeComponents host afterwards: Tool cleared and the
plain object in Subtractions, but the Axes unchanged (still listing the
axis object), since the source never reassigns the property. -/
def cHostR2 : CHost := ⟨1, "Wall", [], [10], some [12], true, none, [], [], false⟩

end Comp

end ArchCommands

/-! # Theorems -/

namespace ArchCommands.StrList

theorem fold_step (acc : String) (l : List SObj)
    (h : 1 < acc.length) :
    l.foldl
      (fun result o =>
        (if result.length > 1 then result ++ "," else result)
          ++ "FreeCAD.ActiveDocument." ++ o.Name)
      acc = acc ++ joinTail l := by
  induction l generalizing acc with
  | nil => simp [joinTail]
  | cons o rest ih =>
    simp only [List.foldl_cons, if_pos h, joinTail]
    rw [ih]
    · simp only [item, String.append_assoc]
    · simp only [String.length_append]
      omega

end ArchCommands.StrList

namespace ArchCommands.MkFace

theorem extFold_spec (ws : List Wire) (m : ℚ) (e : Option Wire) :
    (ws.foldl extStep (m, e) = (m, e) ∧ ∀ w ∈ ws, w.diagonalLength ≤ m)
    ∨ (∃ l1 ext l2, ws = l1 ++ ext :: l2
        ∧ ws.foldl extStep (m, e) = (ext.diagonalLength, some ext)
        ∧ m < ext.diagonalLength
        ∧ (∀ w ∈ l1, w.diagonalLength < ext.diagonalLength)
        ∧ (∀ w ∈ l2, w.diagonalLength ≤ ext.diagonalLength)) := by
  induction ws generalizing m e with
  | nil => left; simp
  | cons w rest ih =>
    by_cases hlt : m < w.diagonalLength
    · have hstep : extStep (m, e) w = (w.diagonalLength, some w) := by
        simp [extStep, hlt]
      rcases ih w.diagonalLength (some w) with ⟨heq, hall⟩ | ⟨l1, ext, l2, hdec, heq, hm, h1, h2⟩
      · right
        exact ⟨[], w, rest, by simp, by simp [hstep, heq], hlt, by simp, hall⟩
      · right
        refine ⟨w :: l1, ext, l2, by simp [hdec], by simp [hstep, heq], ?_, ?_, h2⟩
        · exact lt_trans hlt hm
        · intro u hu
          rcases List.mem_cons.mp hu with h | h
          · subst h; exact hm
          · exact h1 u h
    · have hstep : extStep (m, e) w = (m, e) := by
        simp [extStep, hlt]
      rcases ih m e with ⟨heq, hall⟩ | ⟨l1, ext, l2, hdec, heq, hm, h1, h2⟩
      · left
        refine ⟨by simp [hstep, heq], ?_⟩
        intro u hu
        rcases List.mem_cons.mp hu with h | h
        · subst h; exact le_of_not_lt hlt
        · exact hall u h
      · right
        refine ⟨w :: l1, ext, l2, by simp [hdec], by simp [hstep, heq], hm, ?_, h2⟩
        intro u hu
        rcases List.mem_cons.mp hu with h | h
        · subst h; exact lt_of_le_of_lt (le_of_not_lt hlt) hm
        · exact h1 u h

theorem selectExterior_some (ws : List Wire)
    (hpos : ∃ w ∈ ws, 0 < w.diagonalLength) :
    ∃ ext, selectExterior ws = some ext := by
  rcases extFold_spec ws 0 none with ⟨heq, hall⟩ | ⟨l1, ext, l2, _, heq, _, _, _⟩
  · rcases hpos with ⟨w, hw, hwpos⟩
    exact absurd (hall w hw) (not_le.mpr hwpos)
  · exact ⟨ext, by simp [selectExterior, heq]⟩

theorem selectExterior_spec (ws : List Wire) (ext : Wire)
    (hsel : selectExterior ws = some ext) :
    ext ∈ ws ∧ (∀ w ∈ ws, w.diagonalLength ≤ ext.diagonalLength)
      ∧ (∃ l1 l2, ws = l1 ++ ext :: l2
          ∧ ∀ w ∈ l1, w.diagonalLength < ext.diagonalLength)
      ∧ 0 < ext.diagonalLength := by
  rcases extFold_spec ws 0 none with ⟨heq, _⟩ | ⟨l1, e, l2, hdec, heq, hm, h1, h2⟩
  · simp [selectExterior, heq] at hsel
  · have he : e = ext := by
      have := hsel
      simp [selectExterior, heq] at this
      exact this
    subst he
    refine ⟨by simp [hdec], ?_, ⟨l1, l2, hdec, h1⟩, hm⟩
    intro w hw
    rw [hdec] at hw
    rcases List.mem_append.mp hw with h | h
    · exact le_of_lt (h1 w h)
    · rcases List.mem_cons.mp h with h | h
      · subst h; exact le_refl _
      · exact h2 w h

end ArchCommands.MkFace

namespace ArchCommands.Extrusion

theorem mem_oppositePairs (ga : Vec → Vec → ℚ) (fs : List (EFace × Vec))
    (p : (EFace × Vec) × (EFace × Vec)) :
    p ∈ oppositePairs ga fs ↔
      p.1 ∈ fs ∧ p.2 ∈ fs ∧ p.1.1.hash ≠ p.2.1.hash
        ∧ round4 (ga p.1.2 p.2.2) = 3.1416 := by
  constructor
  · intro h
    simp only [oppositePairs, List.mem_flatMap, List.mem_filterMap] at h
    obtain ⟨f1, h1, f2, h2, hif⟩ := h
    by_cases hc : f1.1.hash ≠ f2.1.hash ∧ round4 (ga f1.2 f2.2) = 3.1416
    · rw [if_pos hc] at hif
      cases hif
      exact ⟨h1, h2, hc.1, hc.2⟩
    · rw [if_neg hc] at hif
      cases hif
  · intro ⟨h1, h2, hne, hang⟩
    simp only [oppositePairs, List.mem_flatMap, List.mem_filterMap]
    exact ⟨p.1, h1, p.2, h2, by rw [if_pos ⟨hne, hang⟩]⟩

theorem mem_validCandidates (ga : Vec → Vec → ℚ) (fs : List (EFace × Vec))
    (pairs : List ((EFace × Vec) × (EFace × Vec))) (c : EFace × Vec) :
    c ∈ validCandidates ga fs pairs ↔
      ∃ p ∈ pairs, perpOk ga fs p = true ∧ c = lowZPick p := by
  constructor
  · intro h
    simp only [validCandidates, List.mem_filterMap] at h
    obtain ⟨p, hp, hif⟩ := h
    by_cases hc : perpOk ga fs p = true
    · rw [if_pos hc] at hif
      cases hif
      exact ⟨p, hp, hc, rfl⟩
    · rw [if_neg hc] at hif
      cases hif
  · intro ⟨p, hp, hok, hc⟩
    simp only [validCandidates, List.mem_filterMap]
    exact ⟨p, hp, by rw [if_pos hok, hc]⟩

end ArchCommands.Extrusion

open ArchCommands.MkFace in
/-- Claim C1: for makeFace(wires) on a list of two or more wires, the exterior
boundary is the wire with the largest bounding-box diagonal (the first
attaining the maximum in list order), it is removed from the list, every
remaining wire is a hole, and with the default method 2 a face is built on
the exterior wire, each hole face cut from it in turn, and the first face of
the final cut result returned.  (Stated for wire lists in which some wire
has a positive bounding-box diagonal; otherwise the scan selects no wire at
all and the source raises on wires.remove(None).) -/
theorem C1_makeFace_exterior_and_holes
    (facesOf : PFace → List PFace) (riv : Wire → Wire)
    (ws : List Wire) (hlen : 2 ≤ ws.length)
    (hpos : ∃ w ∈ ws, 0 < w.diagonalLength) :
    ∃ ext, selectExterior ws = some ext
      ∧ ext ∈ ws
      ∧ (∀ w ∈ ws, w.diagonalLength ≤ ext.diagonalLength)
      ∧ (∃ l1 l2, ws = l1 ++ ext :: l2
          ∧ ∀ w ∈ l1, w.diagonalLength < ext.diagonalLength)
      ∧ ∀ f fs,
          facesOf (holeCut ext (ws.eraseP (fun w => w == ext))) = f :: fs →
            makeFace facesOf riv (.list ws) 2 false = .ok f := by
  obtain ⟨ext, hsel⟩ := selectExterior_some ws hpos
  obtain ⟨hmem, hmax, hdec, _⟩ := selectExterior_spec ws ext hsel
  refine ⟨ext, hsel, hmem, hmax, hdec, ?_⟩
  intro f fs hf
  match ws, hlen with
  | a :: b :: t, _ =>
    simp [makeFace, hsel, hf]

open ArchCommands.MkFace in
/-- Closed witness for claim C1 at a concrete two-wire input: the second
wire has the larger bounding-box diagonal and is selected as exterior. -/
theorem C1_makeFace_exterior_and_holes_witness :
    ∃ ext,
      selectExterior [⟨1, 4, 5, false⟩, ⟨2, 4, 10, false⟩] = some ext
      ∧ ext ∈ [(⟨1, 4, 5, false⟩ : Wire), ⟨2, 4, 10, false⟩]
      ∧ (∀ w ∈ [(⟨1, 4, 5, false⟩ : Wire), ⟨2, 4, 10, false⟩],
          w.diagonalLength ≤ ext.diagonalLength)
      ∧ (∃ l1 l2, [(⟨1, 4, 5, false⟩ : Wire), ⟨2, 4, 10, false⟩] = l1 ++ ext :: l2
          ∧ ∀ w ∈ l1, w.diagonalLength < ext.diagonalLength)
      ∧ ∀ f fs,
          (fun _ => [PFace.ofWire ⟨9, 0, 0, false⟩])
              (holeCut ext ([(⟨1, 4, 5, false⟩ : Wire), ⟨2, 4, 10, false⟩].eraseP
                (fun w => w == ext))) = f :: fs →
            makeFace (fun _ => [PFace.ofWire ⟨9, 0, 0, false⟩]) id
              (.list [⟨1, 4, 5, false⟩, ⟨2, 4, 10, false⟩]) 2 false = .ok f :=
  C1_makeFace_exterior_and_holes (fun _ => [PFace.ofWire ⟨9, 0, 0, false⟩]) id
    [⟨1, 4, 5, false⟩, ⟨2, 4, 10, false⟩] (by decide) (by decide)

open ArchCommands.MkFace in
/-- Claim C9: makeFace raises (returns no face) when its argument is a single
degenerate wire (a non-list argument whose wire has fewer than three
vertexes) or a one-element list whose wire has fewer than three vertexes;
for such inputs no Part.Face is constructed. -/
theorem C9_makeFace_degenerate
    (facesOf : PFace → List PFace) (riv : Wire → Wire)
    (w : Wire) (method : Nat) (cleanup : Bool)
    (h : w.vertexCount < 3) :
    makeFace facesOf riv (.single w) method cleanup = .error ()
    ∧ makeFace facesOf riv (.list [w]) method cleanup = .error () := by
  constructor <;> simp [makeFace, h]

open ArchCommands.MkFace in
/-- Closed witness for claim C9 at a concrete two-vertex wire. -/
theorem C9_makeFace_degenerate_witness :
    makeFace (fun _ => []) id (.single ⟨1, 2, 0, false⟩) 2 false = .error ()
    ∧ makeFace (fun _ => []) id (.list [⟨1, 2, 0, false⟩]) 2 false = .error () :=
  C9_makeFace_degenerate (fun _ => []) id ⟨1, 2, 0, false⟩ 2 false (by decide)

/-- Claim C8: getStringList(objects) returns the string "[]" for the empty
list and, for every non-empty list of objects with names N1,...,Nk, exactly
the string "[FreeCAD.ActiveDocument.N1,FreeCAD.ActiveDocument.N2,...]" with
the object names in input order separated by single commas. -/
theorem C8_getStringList_format (objects : List ArchCommands.StrList.SObj) :
    ArchCommands.StrList.getStringList objects =
      ArchCommands.StrList.specString objects := by
  cases objects with
  | nil => rfl
  | cons o rest =>
    show (List.foldl _ ((if ("[" : String).length > 1 then "[" ++ "," else "[")
        ++ "FreeCAD.ActiveDocument." ++ o.Name) rest) ++ "]" = _
    rw [if_neg (by decide)]
    rw [ArchCommands.StrList.fold_step]
    · simp only [ArchCommands.StrList.specString, ArchCommands.StrList.item,
        String.append_assoc]
    · simp only [String.length_append]
      have : 1 < ("FreeCAD.ActiveDocument." : String).length := by decide
      omega

open ArchCommands.Extrusion in
/-- Claim C2: getExtrusionData(shape) returns None whenever the shape is
null, has no solids, has fewer than three faces, or contains no pair of
distinct faces whose normals are mutually opposite (angle rounding to 3.1416
at four decimal places); an extrusion is detected only through such an
opposite-normal face pair. -/
theorem C2_getExtrusionData_none_conditions
    (ga : ArchCommands.Vec → ArchCommands.Vec → ℚ)
    (vlen : ArchCommands.Vec → ℚ) (shape : EShape) (sm : SortMethod) :
    (shape.isNull = true → getExtrusionData ga vlen shape sm = none)
    ∧ (shape.solidCount = 0 → getExtrusionData ga vlen shape sm = none)
    ∧ (shape.faces.length < 3 → getExtrusionData ga vlen shape sm = none)
    ∧ (∀ fs, facesWithNormals shape = some fs → oppositePairs ga fs = [] →
        getExtrusionData ga vlen shape sm = none)
    ∧ (∀ r, getExtrusionData ga vlen shape sm = some r →
        ∃ fs p, facesWithNormals shape = some fs ∧ p ∈ oppositePairs ga fs
          ∧ p.1.1.hash ≠ p.2.1.hash
          ∧ ArchCommands.round4 (ga p.1.2 p.2.2) = 3.1416) := by
  refine ⟨fun h => by simp [getExtrusionData, h],
    fun h => by simp [getExtrusionData, h],
    fun h => by simp [getExtrusionData, h],
    fun fs hfs hp => by simp [getExtrusionData, hfs, hp],
    ?_⟩
  intro r hr
  simp only [getExtrusionData] at hr
  split at hr
  · simp at hr
  split at hr
  · simp at hr
  split at hr
  · simp at hr
  split at hr
  · simp at hr
  next fs hfs =>
    split at hr
    · simp at hr
    next hpairs =>
      obtain ⟨p, hp⟩ := List.exists_mem_of_ne_nil _ hpairs
      have hchar := (mem_oppositePairs ga fs p).mp hp
      exact ⟨fs, p, hfs, hp, hchar.2.2.1, hchar.2.2.2⟩

open ArchCommands.Extrusion in
/-- Closed witness for claim C2: a null shape and a no-faces shape both
yield None. -/
theorem C2_getExtrusionData_none_conditions_witness :
    getExtrusionData (fun _ _ => 0) (fun _ => 0) ⟨true, 0, []⟩ .area = none
    ∧ getExtrusionData (fun _ _ => 0) (fun _ => 0) ⟨false, 1, []⟩ .area = none :=
  ⟨(C2_getExtrusionData_none_conditions (fun _ _ => 0) (fun _ => 0)
      ⟨true, 0, []⟩ .area).1 rfl,
   (C2_getExtrusionData_none_conditions (fun _ _ => 0) (fun _ => 0)
      ⟨false, 1, []⟩ .area).2.2.1 (by decide)⟩

open ArchCommands.Extrusion in
/-- Claim C3: when getExtrusionData succeeds it returns [base face,
extrusion vector]; every valid candidate comes from an opposite-normal pair
in which all faces outside the pair are at an angle rounding to 1.5708 from
the pair's first normal, with the base being the pair member of lower (not
higher) center-of-mass z and the vector the other member's center of mass
minus the base's; and among all valid candidates the returned one minimises
the base-face area for sortmethod "area", the base center-of-mass z for
"z", and the distance from the given point for a 3D-vector sortmethod. -/
theorem C3_getExtrusionData_selection
    (ga : ArchCommands.Vec → ArchCommands.Vec → ℚ)
    (vlen : ArchCommands.Vec → ℚ) (shape : EShape) (sm : SortMethod)
    (f : EFace) (v : ArchCommands.Vec)
    (hr : getExtrusionData ga vlen shape sm = some (f, v)) :
    ∃ fs, facesWithNormals shape = some fs
      ∧ (f, v) ∈ validCandidates ga fs (oppositePairs ga fs)
      ∧ (∀ c ∈ validCandidates ga fs (oppositePairs ga fs),
          ∃ p ∈ oppositePairs ga fs, perpOk ga fs p = true
            ∧ ∃ base partner : EFace,
                ((base, partner) = (p.1.1, p.2.1)
                  ∨ (base, partner) = (p.2.1, p.1.1))
                ∧ base.centerOfMass.z ≤ partner.centerOfMass.z
                ∧ c = (base, (partner.centerOfMass).sub base.centerOfMass))
      ∧ (sm = SortMethod.area →
          ∀ c ∈ validCandidates ga fs (oppositePairs ga fs), f.area ≤ c.1.area)
      ∧ (sm = SortMethod.z →
          ∀ c ∈ validCandidates ga fs (oppositePairs ga fs),
            f.centerOfMass.z ≤ c.1.centerOfMass.z)
      ∧ (∀ pt, sm = SortMethod.vec pt →
          ∀ c ∈ validCandidates ga fs (oppositePairs ga fs),
            vlen ((f.centerOfMass).sub pt) ≤ vlen ((c.1.centerOfMass).sub pt)) := by
  simp only [getExtrusionData] at hr
  split at hr
  · simp at hr
  split at hr
  · simp at hr
  split at hr
  · simp at hr
  split at hr
  · simp at hr
  next fs hfs =>
    split at hr
    · simp at hr
    next hpairs =>
      split at hr
      · simp at hr
      next hvalids =>
        split at hr
        · simp at hr
        next v0 rest hsort =>
          have hv0 : v0 = (f, v) := Option.some.inj hr
          subst hv0
          have hmemSort :
              (f, v) ∈ (validCandidates ga fs (oppositePairs ga fs)).mergeSort
                (leKey vlen sm) := by
            rw [hsort]; exact List.mem_cons_self _ _
          have hmem := List.mem_mergeSort.mp hmemSort
          have htrans : ∀ (a b c : EFace × ArchCommands.Vec),
              leKey vlen sm a b = true → leKey vlen sm b c = true →
                leKey vlen sm a c = true := by
            intro a b c hab hbc
            simp only [leKey, decide_eq_true_eq] at hab hbc ⊢
            exact le_trans hab hbc
          have htotal : ∀ (a b : EFace × ArchCommands.Vec),
              (leKey vlen sm a b || leKey vlen sm b a) = true := by
            intro a b
            simp only [leKey, Bool.or_eq_true, decide_eq_true_eq]
            exact le_total _ _
          have hsorted := List.sorted_mergeSort htrans htotal
            (validCandidates ga fs (oppositePairs ga fs))
          rw [hsort] at hsorted
          have hhead := (List.pairwise_cons.mp hsorted).1
          have hmin : ∀ c ∈ validCandidates ga fs (oppositePairs ga fs),
              sortKey vlen sm (f, v) ≤ sortKey vlen sm c := by
            intro c hc
            have hc2 : c ∈ (f, v) :: rest := by
              rw [← hsort]; exact List.mem_mergeSort.mpr hc
            rcases List.mem_cons.mp hc2 with h | h
            · rw [h]
            · have := hhead c h
              simpa only [leKey, decide_eq_true_eq] using this
          refine ⟨fs, hfs, hmem, ?_, ?_, ?_, ?_⟩
          · intro c hc
            obtain ⟨p, hp, hok, hcp⟩ := (mem_validCandidates ga fs _ c).mp hc
            refine ⟨p, hp, hok, ?_⟩
            by_cases hz : p.1.1.centerOfMass.z < p.2.1.centerOfMass.z
            · exact ⟨p.1.1, p.2.1, Or.inl rfl, le_of_lt hz,
                by rw [hcp]; simp [lowZPick, hz]⟩
            · exact ⟨p.2.1, p.1.1, Or.inr rfl, not_lt.mp hz,
                by rw [hcp]; simp [lowZPick, hz]⟩
          · intro hsm c hc
            have := hmin c hc
            rw [hsm] at this
            simpa only [sortKey] using this
          · intro hsm c hc
            have := hmin c hc
            rw [hsm] at this
            simpa only [sortKey] using this
          · intro pt hsm c hc
            have := hmin c hc
            rw [hsm] at this
            simpa only [sortKey] using this

namespace ArchCommands.Extrusion

theorem wfacesEq : facesWithNormals wshape = some wfs := rfl

theorem wpairsEq : oppositePairs ga0 wfs =
    [((wf1, ⟨0, 0, 1⟩), (wf2, ⟨0, 0, -1⟩)),
     ((wf2, ⟨0, 0, -1⟩), (wf1, ⟨0, 0, 1⟩))] := by
  norm_num [oppositePairs, ga0, wfs, wf1, wf2, wf3, ArchCommands.round4,
    round_eq, List.flatMap_cons, List.filterMap_cons, Vec.mk.injEq]

theorem wvalidsEq : validCandidates ga0 wfs
    [((wf1, ⟨0, 0, 1⟩), (wf2, ⟨0, 0, -1⟩)),
     ((wf2, ⟨0, 0, -1⟩), (wf1, ⟨0, 0, 1⟩))] =
    [(wf1, ⟨0, 0, 10⟩), (wf1, ⟨0, 0, 10⟩)] := by
  norm_num [validCandidates, perpOk, lowZPick, ga0, wfs, wf1, wf2, wf3,
    ArchCommands.round4, round_eq, List.filterMap_cons, List.all_cons,
    Vec.mk.injEq, Vec.sub]

theorem wsortEq : List.mergeSort
    [((wf1 : EFace), (⟨0, 0, 10⟩ : ArchCommands.Vec)), (wf1, ⟨0, 0, 10⟩)]
    (leKey vlen0 SortMethod.area) =
    [(wf1, ⟨0, 0, 10⟩), (wf1, ⟨0, 0, 10⟩)] := by
  have hperm := List.mergeSort_perm
    [((wf1 : EFace), (⟨0, 0, 10⟩ : ArchCommands.Vec)), (wf1, ⟨0, 0, 10⟩)]
    (leKey vlen0 SortMethod.area)
  have hrep : [((wf1 : EFace), (⟨0, 0, 10⟩ : ArchCommands.Vec)), (wf1, ⟨0, 0, 10⟩)]
      = List.replicate 2 (wf1, ⟨0, 0, 10⟩) := rfl
  rw [hrep] at hperm ⊢
  exact List.perm_replicate.mp hperm

theorem wresultEq : getExtrusionData ga0 vlen0 wshape SortMethod.area =
    some (wf1, ⟨0, 0, 10⟩) := by
  have e1 : wshape.isNull = false := rfl
  have e2 : wshape.solidCount = 1 := rfl
  have e3 : wshape.faces.length = 3 := rfl
  simp only [getExtrusionData, e1, e2, e3, wfacesEq, wpairsEq, wvalidsEq, wsortEq]
  simp

end ArchCommands.Extrusion

open ArchCommands.Extrusion in
/-- Closed witness for claim C3 at a concrete three-face box-like shape:
the detected base face is the low face and the vector points to the high
face's center of mass. -/
theorem C3_getExtrusionData_selection_witness :
    ∃ fs, facesWithNormals wshape = some fs
      ∧ (wf1, (⟨0, 0, 10⟩ : ArchCommands.Vec)) ∈
          validCandidates ga0 fs (oppositePairs ga0 fs)
      ∧ (∀ c ∈ validCandidates ga0 fs (oppositePairs ga0 fs),
          ∃ p ∈ oppositePairs ga0 fs, perpOk ga0 fs p = true
            ∧ ∃ base partner : EFace,
                ((base, partner) = (p.1.1, p.2.1)
                  ∨ (base, partner) = (p.2.1, p.1.1))
                ∧ base.centerOfMass.z ≤ partner.centerOfMass.z
                ∧ c = (base, (partner.centerOfMass).sub base.centerOfMass))
      ∧ (SortMethod.area = SortMethod.area →
          ∀ c ∈ validCandidates ga0 fs (oppositePairs ga0 fs),
            wf1.area ≤ c.1.area)
      ∧ (SortMethod.area = SortMethod.z →
          ∀ c ∈ validCandidates ga0 fs (oppositePairs ga0 fs),
            wf1.centerOfMass.z ≤ c.1.centerOfMass.z)
      ∧ (∀ pt, SortMethod.area = SortMethod.vec pt →
          ∀ c ∈ validCandidates ga0 fs (oppositePairs ga0 fs),
            vlen0 ((wf1.centerOfMass).sub pt) ≤ vlen0 ((c.1.centerOfMass).sub pt)) :=
  C3_getExtrusionData_selection ga0 vlen0 wshape SortMethod.area wf1
    ⟨0, 0, 10⟩ wresultEq

namespace ArchCommands.CutVol

theorem depthAdjust_fst (g : GeomOps) (res : KShape × KShape × KShape)
    (depth : Option ℚ) (cn2 : Vec) :
    (depthAdjust g res depth cn2).1 = res.1 := by
  cases depth with
  | none => rfl
  | some d => by_cases hd : d ≠ 0 <;> simp [depthAdjust, hd]

theorem depthAdjust_thd (g : GeomOps) (res : KShape × KShape × KShape)
    (depth : Option ℚ) (cn2 : Vec) :
    (depthAdjust g res depth cn2).2.2 = res.2.2 := by
  cases depth with
  | none => rfl
  | some d => by_cases hd : d ≠ 0 <;> simp [depthAdjust, hd]

theorem isExtrudeOf_eq_false (s f : KShape) (h : s.isExtrudeOf f = false) :
    ∀ v, s ≠ KShape.extrude f v := by
  intro v hv
  subst hv
  simp [KShape.isExtrudeOf] at h

end ArchCommands.CutVol

open ArchCommands.CutVol in
/-- Counterexample to claim C4 as stated: at a concrete input with
clip = True the call succeeds, yet the returned cut volume is not an
extrusion of the returned cut face (it is a removeSplitter of a fuse), so
the "in every other case it returns ... a cut volume extruded from that
face along the plane normal" clause fails.  `isExtrudeOf` is false exactly
when the shape is not literally an extrusion of the face
(isExtrudeOf_eq_false). -/
theorem C4_getCutVolume_counterexample :
    Option.map (fun t => KShape.isExtrudeOf t.2.1 t.1)
      (getCutVolume g0 cp0 [sh0] true none) = some false := rfl

open ArchCommands.CutVol in
/-- Claim C4, amended: getCutVolume returns the None triple exactly when
shapes is empty, the cut plane has no faces, extracting the plane face
raises a kernel error, or the enlarged bounding box of the shapes is not
cut by the plane through the face's center of mass along its normal.  In
every other case it returns a cut face, a cut volume and an inverse cut
volume extruded from the returned cut face opposite the plane normal; the
cut volume is the cut face extruded along the plane normal when clip is
false and depth is unset or zero (the amendment: with clip or a non-zero
depth the cut volume is additionally fused and cleaned, so it is not a
plain extrusion of the returned face). -/
theorem C4_getCutVolume_amended
    (g : GeomOps) (cutplane : CutPlane) (shapes : List GShape)
    (clip : Bool) (depth : Option ℚ) :
    (getCutVolume g cutplane shapes clip depth = none ↔
      shapes = [] ∨ cutplane.faces = [] ∨ cutplane.copyFails = true
        ∨ (∃ s0 rest p l, shapes = s0 :: rest ∧ cutplane.faces = p :: l
            ∧ g.isCutPlane (shapesBB s0 rest) p.centerOfMass p.normalAt = false))
    ∧ (∀ cf cv icv,
        getCutVolume g cutplane shapes clip depth = some (cf, cv, icv) →
          ∃ p l w, cutplane.faces = p :: l
            ∧ icv = KShape.extrude cf ((g.scaleTo p.normalAt w).neg))
    ∧ (clip = false → depth = none ∨ depth = some 0 →
        ∀ cf cv icv,
          getCutVolume g cutplane shapes clip depth = some (cf, cv, icv) →
            ∃ p l w, cutplane.faces = p :: l
              ∧ cv = KShape.extrude cf (g.scaleTo p.normalAt w)
              ∧ icv = KShape.extrude cf ((g.scaleTo p.normalAt w).neg)) := by
  rcases shapes with _ | ⟨s0, rest⟩
  · refine ⟨by simp [getCutVolume], ?_, ?_⟩
    · intro cf cv icv h
      simp [getCutVolume] at h
    · intro _ _ cf cv icv h
      simp [getCutVolume] at h
  · rcases hpl : cutplane.faces with _ | ⟨p, l⟩
    · refine ⟨by simp [getCutVolume, hpl], ?_, ?_⟩
      · intro cf cv icv h
        simp [getCutVolume, hpl] at h
      · intro _ _ cf cv icv h
        simp [getCutVolume, hpl] at h
    · rcases hcf : cutplane.copyFails with _ | _
      · rcases hic : g.isCutPlane (shapesBB s0 rest) p.centerOfMass p.normalAt
          with _ | _
        · -- the box is not cut by the plane: the result is None
          refine ⟨?_, ?_, ?_⟩
          · constructor
            · intro _
              exact Or.inr (Or.inr (Or.inr ⟨s0, rest, p, l, rfl, rfl, hic⟩))
            · intro _
              simp [getCutVolume, hpl, hcf, hic]
          · intro cf cv icv h
            simp [getCutVolume, hpl, hcf, hic] at h
          · intro _ _ cf cv icv h
            simp [getCutVolume, hpl, hcf, hic] at h
        · -- success case
          refine ⟨?_, ?_, ?_⟩
          · constructor
            · intro h
              simp [getCutVolume, hpl, hcf, hic] at h
            · rintro (h | h | h | ⟨a, b, q, m, he, hf, hi⟩)
              · exact absurd h (List.cons_ne_nil _ _)
              · exact absurd h (List.cons_ne_nil _ _)
              · exact absurd h (by simp)
              · injection he with h1 h2
                subst h1
                subst h2
                injection hf with h3 h4
                subst h3
                rw [hic] at hi
                exact absurd hi (by simp)
          · intro cf cv icv h
            simp only [getCutVolume, hpl, hcf, hic] at h
            rw [if_neg (List.cons_ne_nil p l)] at h
            simp only [Bool.false_eq_true, Bool.true_eq_false, if_false,
              Option.some.injEq] at h
            have h1 := congrArg Prod.fst h
            have h3 := congrArg (fun t : KShape × KShape × KShape => t.2.2) h
            simp only [depthAdjust_fst, depthAdjust_thd] at h1 h3
            cases clip
            · simp only [Bool.false_eq_true, if_false] at h1 h3
              exact ⟨p, l, _, rfl, by rw [← h3, ← h1]⟩
            · simp only [if_true, clipAdjust] at h1 h3
              exact ⟨p, l, _, rfl, by rw [← h3, ← h1]⟩
          · intro hclip hdep cf cv icv h
            subst hclip
            simp only [getCutVolume, hpl, hcf, hic] at h
            rw [if_neg (List.cons_ne_nil p l)] at h
            simp only [Bool.false_eq_true, Bool.true_eq_false, if_false,
              Option.some.injEq] at h
            rcases hdep with rfl | rfl
            · simp only [depthAdjust] at h
              have h1 := congrArg Prod.fst h
              have h2 := congrArg (fun t : KShape × KShape × KShape => t.2.1) h
              have h3 := congrArg (fun t : KShape × KShape × KShape => t.2.2) h
              simp only [] at h1 h2 h3
              exact ⟨p, l, _, rfl, by rw [← h2, ← h1], by rw [← h3, ← h1]⟩
            · simp only [depthAdjust, ne_eq, not_true_eq_false, if_false] at h
              have h1 := congrArg Prod.fst h
              have h2 := congrArg (fun t : KShape × KShape × KShape => t.2.1) h
              have h3 := congrArg (fun t : KShape × KShape × KShape => t.2.2) h
              simp only [] at h1 h2 h3
              exact ⟨p, l, _, rfl, by rw [← h2, ← h1], by rw [← h3, ← h1]⟩
      · refine ⟨by simp [getCutVolume, hpl, hcf], ?_, ?_⟩
        · intro cf cv icv h
          simp [getCutVolume, hpl, hcf] at h
        · intro _ _ cf cv icv h
          simp [getCutVolume, hpl, hcf] at h

open ArchCommands.CutVol in
/-- Closed witness for the amended claim C4: a cut plane with no faces
yields the None triple, and at a successful default-parameter input the
returned inverse cut volume is an extrusion of the returned cut face
opposite the plane normal. -/
theorem C4_getCutVolume_amended_witness :
    (getCutVolume g0 ⟨[], false⟩ [sh0] false none = none)
    ∧ (∃ p l w, cp0.faces = p :: l
        ∧ KShape.extrude wCF wCN.neg
            = KShape.extrude wCF ((g0.scaleTo p.normalAt w).neg)) :=
  ⟨(C4_getCutVolume_amended g0 ⟨[], false⟩ [sh0] false none).1.mpr
      (Or.inr (Or.inl rfl)),
   (C4_getCutVolume_amended g0 cp0 [sh0] false none).2.1 wCF
      (KShape.extrude wCF wCN) (KShape.extrude wCF wCN.neg) rfl⟩

open ArchCommands.MeshConv in
/-- Claim C5: for every object carrying a Mesh property, meshToShape
converts the mesh via getShapeFromMesh; when a shape is obtained it adds a
new Part::Feature holding that shape under the original object's name,
removing the original from the document only when the shape is both closed
and valid (otherwise the original is kept, and when mark is true the new
object is colored red); it returns None when the object has no Mesh
property or no shape could be built. -/
theorem C5_meshToShape_behaviour (gsfm : Mesh → Option MSolid)
    (doc : Doc) (obj : MObj) (mark : Bool) :
    ("Mesh" ∉ obj.props → meshToShape gsfm doc obj mark = (doc, none))
    ∧ ("Mesh" ∈ obj.props → gsfm obj.mesh = none →
        meshToShape gsfm doc obj mark = (doc, none))
    ∧ (∀ solid, "Mesh" ∈ obj.props → gsfm obj.mesh = some solid →
        ∃ newobj,
          meshToShape gsfm doc obj mark =
            ((if solid.isClosed && solid.isValid
                then doc.removeObject obj.Name else doc).addObject newobj,
             some newobj)
          ∧ newobj.Name = obj.Name
          ∧ newobj.typeId = "Part::Feature"
          ∧ newobj.shape = some solid
          ∧ newobj.shapeColor =
              (if (!solid.isClosed || !solid.isValid) && mark
               then some (1, 0, 0, 1) else none)) := by
  refine ⟨fun h => by simp [meshToShape, h], fun h hg => by simp [meshToShape, h, hg], ?_⟩
  intro solid hm hg
  refine ⟨if (!solid.isClosed || !solid.isValid) && mark
      then ⟨obj.Name, "Part::Feature", some solid, some (1, 0, 0, 1)⟩
      else ⟨obj.Name, "Part::Feature", some solid, none⟩, ?_, ?_, ?_, ?_, ?_⟩
  · simp [meshToShape, hm, hg]
  · split <;> rfl
  · split <;> rfl
  · split <;> rfl
  · split <;> rfl

open ArchCommands.MeshConv in
/-- Closed witness for claim C5: an object without the Mesh property is
left alone, and a meshed object converting to a closed valid shape yields
a new Part::Feature replacing the original. -/
theorem C5_meshToShape_behaviour_witness :
    (meshToShape (fun _ => some ⟨true, true, 5⟩)
        ⟨[⟨"M1", "Mesh::Feature", none, none⟩]⟩ ⟨"M1", [], ⟨7⟩⟩ true =
      (⟨[⟨"M1", "Mesh::Feature", none, none⟩]⟩, none))
    ∧ (∃ newobj,
        meshToShape (fun _ => some ⟨true, true, 5⟩)
            ⟨[⟨"M1", "Mesh::Feature", none, none⟩]⟩ ⟨"M1", ["Mesh"], ⟨7⟩⟩ true =
          ((if (true : Bool) && true
              then Doc.removeObject ⟨[⟨"M1", "Mesh::Feature", none, none⟩]⟩ "M1"
              else ⟨[⟨"M1", "Mesh::Feature", none, none⟩]⟩).addObject newobj,
           some newobj)
        ∧ newobj.Name = "M1"
        ∧ newobj.typeId = "Part::Feature"
        ∧ newobj.shape = some ⟨true, true, 5⟩
        ∧ newobj.shapeColor =
            (if (!(true : Bool) || !(true : Bool)) && true
             then some (1, 0, 0, 1) else none)) :=
  ⟨(C5_meshToShape_behaviour (fun _ => some ⟨true, true, 5⟩)
      ⟨[⟨"M1", "Mesh::Feature", none, none⟩]⟩ ⟨"M1", [], ⟨7⟩⟩ true).1
      (by decide),
   (C5_meshToShape_behaviour (fun _ => some ⟨true, true, 5⟩)
      ⟨[⟨"M1", "Mesh::Feature", none, none⟩]⟩ ⟨"M1", ["Mesh"], ⟨7⟩⟩ true).2.2
      ⟨true, true, 5⟩ (by decide) rfl⟩

namespace ArchCommands.Prune

theorem prune_fold_spec (full : List PObj) (strict : Bool) (l : List PObj) :
    ∀ acc : List PObj, ∃ t,
      l.foldl (pruneStep full strict) acc = acc ++ t
      ∧ t.Sublist l
      ∧ ∀ obj ∈ l,
          (obj.isPartFeature = false
            ∨ obj.otype ∈ ["Window", "Clone", "Pipe", "Rebar", "Roof"]) →
            obj ∈ t := by
  induction l with
  | nil => intro acc; exact ⟨[], by simp, List.Sublist.refl _, by simp⟩
  | cons obj rest ih =>
    intro acc
    by_cases htop :
        (if obj.isPartFeature then
          if obj.otype ∉ ["Window", "Clone", "Pipe", "Rebar", "Roof"] then
            toplevelAfterParents strict (full.map (fun o => o.id))
              (acc.map (fun o => o.id)) obj
          else true
        else true) = true
    · obtain ⟨t, ht, hsub, hmem⟩ := ih (acc ++ [obj])
      refine ⟨obj :: t, ?_, List.Sublist.cons₂ obj hsub, ?_⟩
      · rw [List.foldl_cons]
        rw [show pruneStep full strict acc obj = acc ++ [obj] from by
          simp only [pruneStep, htop, if_true]]
        rw [ht]
        simp
      · intro o ho hkeep
        rcases List.mem_cons.mp ho with h | h
        · exact h ▸ List.mem_cons_self _ _
        · exact List.mem_cons_of_mem _ (hmem o h hkeep)
    · obtain ⟨t, ht, hsub, hmem⟩ := ih acc
      refine ⟨t, ?_, List.Sublist.cons obj hsub, ?_⟩
      · rw [List.foldl_cons]
        rw [show pruneStep full strict acc obj = acc from by
          simp only [pruneStep]
          rw [if_neg]
          intro hc
          exact htop hc]
        exact ht
      · intro o ho hkeep
        rcases List.mem_cons.mp ho with h | h
        · exfalso
          apply htop
          subst h
          rcases hkeep with h1 | h1
          · simp [h1]
          · simp [h1]
        · exact hmem o h hkeep

end ArchCommands.Prune

open ArchCommands.Prune in
/-- Claim C10: pruneIncluded returns a subsequence of its input (every
returned object occurs in the input, in the same relative order), and
every input object that is not derived from Part::Feature or whose type
is Window, Clone, Pipe, Rebar or Roof is always retained, regardless of
its parents. -/
theorem C10_pruneIncluded_sublist_retention (l : List PObj) (strict : Bool) :
    (pruneIncluded l strict).Sublist l
    ∧ ∀ obj ∈ l,
        (obj.isPartFeature = false
          ∨ obj.otype ∈ ["Window", "Clone", "Pipe", "Rebar", "Roof"]) →
          obj ∈ pruneIncluded l strict := by
  obtain ⟨t, ht, hsub, hmem⟩ := prune_fold_spec l strict l []
  have hpr : pruneIncluded l strict = t := by simpa [pruneIncluded] using ht
  rw [hpr]
  exact ⟨hsub, hmem⟩

open ArchCommands.Prune in
/-- Closed witness for claim C10: a non-Part::Feature object with a
pruning parent is still retained, and the result is a subsequence. -/
theorem C10_pruneIncluded_sublist_retention_witness :
    (pruneIncluded
        [⟨1, "A", false, "Wall",
           [⟨9, true, false, "Wall", false, false, none, false,
             "App::FeaturePython", none, none, none⟩]⟩,
         ⟨2, "B", true, "Structure",
           [⟨9, true, false, "Wall", false, false, none, false,
             "App::FeaturePython", none, none, none⟩]⟩] false).Sublist
      [⟨1, "A", false, "Wall",
         [⟨9, true, false, "Wall", false, false, none, false,
           "App::FeaturePython", none, none, none⟩]⟩,
       ⟨2, "B", true, "Structure",
         [⟨9, true, false, "Wall", false, false, none, false,
           "App::FeaturePython", none, none, none⟩]⟩]
    ∧ (⟨1, "A", false, "Wall",
         [⟨9, true, false, "Wall", false, false, none, false,
           "App::FeaturePython", none, none, none⟩]⟩ : PObj) ∈
        pruneIncluded
          [⟨1, "A", false, "Wall",
             [⟨9, true, false, "Wall", false, false, none, false,
               "App::FeaturePython", none, none, none⟩]⟩,
           ⟨2, "B", true, "Structure",
             [⟨9, true, false, "Wall", false, false, none, false,
               "App::FeaturePython", none, none, none⟩]⟩] false :=
  ⟨(C10_pruneIncluded_sublist_retention _ false).1,
   (C10_pruneIncluded_sublist_retention _ false).2 _ (by simp) (Or.inl rfl)⟩

namespace ArchCommands.Comp

theorem pathKind_false_of_not (host : CHost) (o : CObj)
    (h : ¬(o.isValidPath = true ∧ host.htype ∈ ["Structure", "Precast"])) :
    pathKind host o = false := by
  rcases not_and_or.mp h with hv | hm
  · have hv2 : o.isValidPath = false := by
      cases hvb : o.isValidPath
      · rfl
      · exact absurd hvb hv
    simp [pathKind, hv2]
  · simp [pathKind, hm]

theorem pathKind_false_of_noShape (host : CHost) (o : CObj)
    (h : ¬ o.hasShape = true) : pathKind host o = false := by
  cases hb : o.hasShape
  · simp [pathKind, hb]
  · exact absurd hb h

theorem pathKind_false_of_window (host : CHost) (o : CObj)
    (h : o.otype = "Window") : pathKind host o = false := by
  simp [pathKind, h]

theorem pathKind_true_intro (host : CHost) (o : CObj)
    (hsh : o.hasShape = true) (hwin : ¬ o.otype = "Window")
    (hpath : o.isValidPath = true ∧ host.htype ∈ ["Structure", "Precast"]) :
    pathKind host o = true := by
  simp [pathKind, hsh, hwin, hpath.1, hpath.2]

theorem addFold_spec (host : CHost) (l : List CObj) :
    ∀ (a : List Nat) (x : Option (List Nat)) (tool : Option Nat)
      (objs : List CObj)
      (res : List Nat × Option (List Nat) × Option Nat × List CObj),
      List.foldlM (addStep host) (a, x, tool, objs) l = Except.ok res →
      (∃ t, res.1 = a ++ t)
      ∧ (∀ xs, x = some xs → ∃ t, res.2.1 = some (xs ++ t))
      ∧ (x = none → res.2.1 = none)
      ∧ (∀ o ∈ l, o.hasShape = true → o.otype ≠ "Window" → o.otype ≠ "Axis" →
          ¬(o.isValidPath = true ∧ host.htype ∈ ["Structure", "Precast"]) →
          o.id ∈ res.1)
      ∧ (∀ o ∈ l, o.hasShape = true → o.otype = "Axis" →
          ¬(o.isValidPath = true ∧ host.htype ∈ ["Structure", "Precast"]) →
          ∃ xs, res.2.1 = some xs ∧ o.id ∈ xs)
      ∧ (res.2.2.1 =
          l.foldl (fun t o => if pathKind host o then some o.id else t) tool)
      ∧ (∀ o ∈ l, o.hasShape = true → o.otype = "Window" →
          ∃ o', o' ∈ res.2.2.2 ∧ o'.id = o.id
            ∧ (∀ g, o.hosts = some g → ∃ g', o'.hosts = some g' ∧ host.id ∈ g'))
      ∧ (∀ o' ∈ objs, o' ∈ res.2.2.2) := by
  induction l with
  | nil =>
    intro a x tool objs res h
    have h' : Except.ok (a, x, tool, objs) = Except.ok res := h
    cases h'
    refine ⟨⟨[], by simp⟩, fun xs hxs => ⟨[], by simp [hxs]⟩, fun hx => hx,
      by simp, by simp, by simp, by simp, fun o' ho' => ho'⟩
  | cons o rest ih =>
    intro a x tool objs res h
    by_cases hsh : o.hasShape = true
    · by_cases hwin : o.otype = "Window"
      · -- Window branch
        rcases hho : o.hosts with _ | g
        · have hstep : addStep host (a, x, tool, objs) o =
              .ok (a, x, tool, o :: objs) := by
            simp [addStep, hsh, hwin, hho]
          rw [List.foldlM_cons, hstep] at h
          have h' : List.foldlM (addStep host) (a, x, tool, o :: objs) rest =
              Except.ok res := h
          obtain ⟨ih1, ih2, ih3, ih4, ih5, ih6, ih7, ih8⟩ :=
            ih a x tool (o :: objs) res h'
          refine ⟨ih1, ih2, ih3, ?_, ?_, ?_, ?_, fun o' ho' =>
            ih8 o' (List.mem_cons_of_mem _ ho')⟩
          · intro u hu h1 h2 h3 h4
            rcases List.mem_cons.mp hu with rfl | hu
            · exact absurd hwin h2
            · exact ih4 u hu h1 h2 h3 h4
          · intro u hu h1 h2 h3
            rcases List.mem_cons.mp hu with rfl | hu
            · exact absurd (hwin.symm.trans h2) (by decide)
            · exact ih5 u hu h1 h2 h3
          · rw [List.foldl_cons, pathKind_false_of_window host o hwin]
            exact ih6
          · intro u hu h1 h2
            rcases List.mem_cons.mp hu with rfl | hu
            · exact ⟨u, ih8 u (List.mem_cons_self _ _), rfl,
                fun g hg => by rw [hho] at hg; cases hg⟩
            · exact ih7 u hu h1 h2
        · by_cases hhin : host.id ∈ g
          · have hstep : addStep host (a, x, tool, objs) o =
                .ok (a, x, tool, o :: objs) := by
              simp [addStep, hsh, hwin, hho, hhin]
            rw [List.foldlM_cons, hstep] at h
            have h' : List.foldlM (addStep host) (a, x, tool, o :: objs) rest =
                Except.ok res := h
            obtain ⟨ih1, ih2, ih3, ih4, ih5, ih6, ih7, ih8⟩ :=
              ih a x tool (o :: objs) res h'
            refine ⟨ih1, ih2, ih3, ?_, ?_, ?_, ?_, fun o' ho' =>
              ih8 o' (List.mem_cons_of_mem _ ho')⟩
            · intro u hu h1 h2 h3 h4
              rcases List.mem_cons.mp hu with rfl | hu
              · exact absurd hwin h2
              · exact ih4 u hu h1 h2 h3 h4
            · intro u hu h1 h2 h3
              rcases List.mem_cons.mp hu with rfl | hu
              · exact absurd (hwin.symm.trans h2) (by decide)
              · exact ih5 u hu h1 h2 h3
            · rw [List.foldl_cons, pathKind_false_of_window host o hwin]
              exact ih6
            · intro u hu h1 h2
              rcases List.mem_cons.mp hu with rfl | hu
              · refine ⟨u, ih8 u (List.mem_cons_self _ _), rfl, ?_⟩
                intro g2 hg2
                rw [hho] at hg2
                cases hg2
                exact ⟨g, hho, hhin⟩
              · exact ih7 u hu h1 h2
          · have hstep : addStep host (a, x, tool, objs) o =
                .ok (a, x, tool,
                  { o with hosts := some (g ++ [host.id]) } :: objs) := by
              simp [addStep, hsh, hwin, hho, hhin]
            rw [List.foldlM_cons, hstep] at h
            have h' : List.foldlM (addStep host)
                (a, x, tool, { o with hosts := some (g ++ [host.id]) } :: objs)
                rest = Except.ok res := h
            obtain ⟨ih1, ih2, ih3, ih4, ih5, ih6, ih7, ih8⟩ :=
              ih a x tool ({ o with hosts := some (g ++ [host.id]) } :: objs)
                res h'
            refine ⟨ih1, ih2, ih3, ?_, ?_, ?_, ?_, fun o' ho' =>
              ih8 o' (List.mem_cons_of_mem _ ho')⟩
            · intro u hu h1 h2 h3 h4
              rcases List.mem_cons.mp hu with rfl | hu
              · exact absurd hwin h2
              · exact ih4 u hu h1 h2 h3 h4
            · intro u hu h1 h2 h3
              rcases List.mem_cons.mp hu with rfl | hu
              · exact absurd (hwin.symm.trans h2) (by decide)
              · exact ih5 u hu h1 h2 h3
            · rw [List.foldl_cons, pathKind_false_of_window host o hwin]
              exact ih6
            · intro u hu h1 h2
              rcases List.mem_cons.mp hu with rfl | hu
              · refine ⟨{ u with hosts := some (g ++ [host.id]) },
                  ih8 _ (List.mem_cons_self _ _), rfl, ?_⟩
                intro g2 hg2
                exact ⟨g ++ [host.id], rfl, by simp⟩
              · exact ih7 u hu h1 h2
      · by_cases hpath : o.isValidPath = true ∧ host.htype ∈ ["Structure", "Precast"]
        · -- valid path with Structure/Precast host: becomes the Tool
          have hstep : addStep host (a, x, tool, objs) o =
              .ok (a, x,
                some (if o.attachmentSupport = some host.id
                  then { o with attachmentSupport := none } else o).id,
                (if o.attachmentSupport = some host.id
                  then { o with attachmentSupport := none } else o) :: objs) := by
            simp only [addStep, hsh, if_true, hwin, if_false, hpath,
              and_self, ite_true]
          have hid : (if o.attachmentSupport = some host.id
              then { o with attachmentSupport := none } else o).id = o.id := by
            split <;> rfl
          rw [List.foldlM_cons, hstep] at h
          have h' : List.foldlM (addStep host)
              (a, x,
               some (if o.attachmentSupport = some host.id
                 then { o with attachmentSupport := none } else o).id,
               (if o.attachmentSupport = some host.id
                 then { o with attachmentSupport := none } else o) :: objs)
              rest = Except.ok res := h
          obtain ⟨ih1, ih2, ih3, ih4, ih5, ih6, ih7, ih8⟩ :=
            ih _ _ _ _ res h'
          refine ⟨ih1, ih2, ih3, ?_, ?_, ?_, ?_, fun o' ho' =>
            ih8 o' (List.mem_cons_of_mem _ ho')⟩
          · intro u hu h1 h2 h3 h4
            rcases List.mem_cons.mp hu with rfl | hu
            · exact absurd hpath h4
            · exact ih4 u hu h1 h2 h3 h4
          · intro u hu h1 h2 h3
            rcases List.mem_cons.mp hu with rfl | hu
            · exact absurd hpath h3
            · exact ih5 u hu h1 h2 h3
          · rw [List.foldl_cons, pathKind_true_intro host o hsh hwin hpath,
              ih6, hid]
            simp
          · intro u hu h1 h2
            rcases List.mem_cons.mp hu with rfl | hu
            · exact absurd h2 hwin
            · exact ih7 u hu h1 h2
        · have hcond : (o.isValidPath = true ∧
              host.htype ∈ ["Structure", "Precast"]) = False := by
            simp only [eq_iff_iff, iff_false]
            exact hpath
          by_cases haxis : o.otype = "Axis"
          · rcases x with _ | xs
            · -- Axis object, host without Axes: NameError
              have hstep : addStep host (a, none, tool, objs) o =
                  .error () := by
                simp [addStep, hsh, hwin, hcond, haxis]
                all_goals
                  first
                  | exact fun hv => ⟨fun hS => hpath ⟨hv, by simp [hS]⟩,
                      fun hP => hpath ⟨hv, by simp [hP]⟩⟩
                  | exact fun hv hsp => (hpath ⟨hv, by simpa using hsp⟩).elim
              rw [List.foldlM_cons, hstep] at h
              have h' : (Except.error () :
                  Except Unit (List Nat × Option (List Nat) × Option Nat ×
                    List CObj)) = Except.ok res := h
              cases h'
            · by_cases hin : o.id ∈ xs
              · have hstep : addStep host (a, some xs, tool, objs) o =
                    .ok (a, some xs, tool, o :: objs) := by
                  simp [addStep, hsh, hwin, hcond, haxis, hin]
                  all_goals
                    first
                    | exact fun hv => ⟨fun hS => hpath ⟨hv, by simp [hS]⟩,
                        fun hP => hpath ⟨hv, by simp [hP]⟩⟩
                    | exact fun hv hsp => (hpath ⟨hv, by simpa using hsp⟩).elim
                rw [List.foldlM_cons, hstep] at h
                have h' : List.foldlM (addStep host)
                    (a, some xs, tool, o :: objs) rest = Except.ok res := h
                obtain ⟨ih1, ih2, ih3, ih4, ih5, ih6, ih7, ih8⟩ :=
                  ih a (some xs) tool (o :: objs) res h'
                refine ⟨ih1, ih2, ih3, ?_, ?_, ?_, ?_, fun o' ho' =>
                  ih8 o' (List.mem_cons_of_mem _ ho')⟩
                · intro u hu h1 h2 h3 h4
                  rcases List.mem_cons.mp hu with rfl | hu
                  · exact absurd haxis h3
                  · exact ih4 u hu h1 h2 h3 h4
                · intro u hu h1 h2 h3
                  rcases List.mem_cons.mp hu with rfl | hu
                  · obtain ⟨t, ht⟩ := ih2 xs rfl
                    exact ⟨xs ++ t, ht, List.mem_append_left _ hin⟩
                  · exact ih5 u hu h1 h2 h3
                · rw [List.foldl_cons, pathKind_false_of_not host o hpath]
                  exact ih6
                · intro u hu h1 h2
                  rcases List.mem_cons.mp hu with rfl | hu
                  · exact absurd h2 hwin
                  · exact ih7 u hu h1 h2
              · have hstep : addStep host (a, some xs, tool, objs) o =
                    .ok (a, some (xs ++ [o.id]), tool, o :: objs) := by
                  simp [addStep, hsh, hwin, hcond, haxis, hin]
                  all_goals
                    first
                    | exact fun hv => ⟨fun hS => hpath ⟨hv, by simp [hS]⟩,
                        fun hP => hpath ⟨hv, by simp [hP]⟩⟩
                    | exact fun hv hsp => (hpath ⟨hv, by simpa using hsp⟩).elim
                rw [List.foldlM_cons, hstep] at h
                have h' : List.foldlM (addStep host)
                    (a, some (xs ++ [o.id]), tool, o :: objs) rest =
                    Except.ok res := h
                obtain ⟨ih1, ih2, ih3, ih4, ih5, ih6, ih7, ih8⟩ :=
                  ih a (some (xs ++ [o.id])) tool (o :: objs) res h'
                refine ⟨ih1, ?_, ?_, ?_, ?_, ?_, ?_, fun o' ho' =>
                  ih8 o' (List.mem_cons_of_mem _ ho')⟩
                · intro xs0 hxs0
                  cases hxs0
                  obtain ⟨t, ht⟩ := ih2 (xs ++ [o.id]) rfl
                  exact ⟨[o.id] ++ t, by simpa using ht⟩
                · intro hx
                  cases hx
                · intro u hu h1 h2 h3 h4
                  rcases List.mem_cons.mp hu with rfl | hu
                  · exact absurd haxis h3
                  · exact ih4 u hu h1 h2 h3 h4
                · intro u hu h1 h2 h3
                  rcases List.mem_cons.mp hu with heq | hu
                  · obtain ⟨t, ht⟩ := ih2 (xs ++ [o.id]) rfl
                    exact ⟨xs ++ [o.id] ++ t, ht, by rw [heq]; simp⟩
                  · exact ih5 u hu h1 h2 h3
                · rw [List.foldl_cons, pathKind_false_of_not host o hpath]
                  exact ih6
                · intro u hu h1 h2
                  rcases List.mem_cons.mp hu with rfl | hu
                  · exact absurd h2 hwin
                  · exact ih7 u hu h1 h2
          · by_cases hina : o.id ∈ a
            · have hstep : addStep host (a, x, tool, objs) o =
                  .ok (a, x, tool, o :: objs) := by
                simp [addStep, hsh, hwin, hcond, haxis, hina]
                all_goals
                  first
                  | exact fun hv => ⟨fun hS => hpath ⟨hv, by simp [hS]⟩,
                      fun hP => hpath ⟨hv, by simp [hP]⟩⟩
                  | exact fun hv hsp => (hpath ⟨hv, by simpa using hsp⟩).elim
              rw [List.foldlM_cons, hstep] at h
              have h' : List.foldlM (addStep host) (a, x, tool, o :: objs)
                  rest = Except.ok res := h
              obtain ⟨ih1, ih2, ih3, ih4, ih5, ih6, ih7, ih8⟩ :=
                ih a x tool (o :: objs) res h'
              refine ⟨ih1, ih2, ih3, ?_, ?_, ?_, ?_, fun o' ho' =>
                ih8 o' (List.mem_cons_of_mem _ ho')⟩
              · intro u hu h1 h2 h3 h4
                rcases List.mem_cons.mp hu with rfl | hu
                · obtain ⟨t, ht⟩ := ih1
                  rw [ht]
                  exact List.mem_append_left _ hina
                · exact ih4 u hu h1 h2 h3 h4
              · intro u hu h1 h2 h3
                rcases List.mem_cons.mp hu with rfl | hu
                · exact absurd h2 haxis
                · exact ih5 u hu h1 h2 h3
              · rw [List.foldl_cons, pathKind_false_of_not host o hpath]
                exact ih6
              · intro u hu h1 h2
                rcases List.mem_cons.mp hu with rfl | hu
                · exact absurd h2 hwin
                · exact ih7 u hu h1 h2
            · have hstep : addStep host (a, x, tool, objs) o =
                  .ok (a ++ [o.id], x, tool, o :: objs) := by
                simp [addStep, hsh, hwin, hcond, haxis, hina]
                all_goals
                  first
                  | exact fun hv => ⟨fun hS => hpath ⟨hv, by simp [hS]⟩,
                      fun hP => hpath ⟨hv, by simp [hP]⟩⟩
                  | exact fun hv hsp => (hpath ⟨hv, by simpa using hsp⟩).elim
              rw [List.foldlM_cons, hstep] at h
              have h' : List.foldlM (addStep host)
                  (a ++ [o.id], x, tool, o :: objs) rest = Except.ok res := h
              obtain ⟨ih1, ih2, ih3, ih4, ih5, ih6, ih7, ih8⟩ :=
                ih (a ++ [o.id]) x tool (o :: objs) res h'
              refine ⟨?_, ih2, ih3, ?_, ?_, ?_, ?_, fun o' ho' =>
                ih8 o' (List.mem_cons_of_mem _ ho')⟩
              · obtain ⟨t, ht⟩ := ih1
                exact ⟨[o.id] ++ t, by simpa using ht⟩
              · intro u hu h1 h2 h3 h4
                rcases List.mem_cons.mp hu with rfl | hu
                · obtain ⟨t, ht⟩ := ih1
                  rw [ht]
                  exact List.mem_append_left _ (by simp)
                · exact ih4 u hu h1 h2 h3 h4
              · intro u hu h1 h2 h3
                rcases List.mem_cons.mp hu with rfl | hu
                · exact absurd h2 haxis
                · exact ih5 u hu h1 h2 h3
              · rw [List.foldl_cons, pathKind_false_of_not host o hpath]
                exact ih6
              · intro u hu h1 h2
                rcases List.mem_cons.mp hu with rfl | hu
                · exact absurd h2 hwin
                · exact ih7 u hu h1 h2
    · -- no Shape attribute: the object is skipped
      have hstep : addStep host (a, x, tool, objs) o =
          .ok (a, x, tool, o :: objs) := by
        simp [addStep, hsh]
      rw [List.foldlM_cons, hstep] at h
      have h' : List.foldlM (addStep host) (a, x, tool, o :: objs) rest =
          Except.ok res := h
      obtain ⟨ih1, ih2, ih3, ih4, ih5, ih6, ih7, ih8⟩ :=
        ih a x tool (o :: objs) res h'
      refine ⟨ih1, ih2, ih3, ?_, ?_, ?_, ?_, fun o' ho' =>
        ih8 o' (List.mem_cons_of_mem _ ho')⟩
      · intro u hu h1 h2 h3 h4
        rcases List.mem_cons.mp hu with rfl | hu
        · exact absurd h1 hsh
        · exact ih4 u hu h1 h2 h3 h4
      · intro u hu h1 h2 h3
        rcases List.mem_cons.mp hu with rfl | hu
        · exact absurd h1 hsh
        · exact ih5 u hu h1 h2 h3
      · rw [List.foldl_cons, pathKind_false_of_noShape host o hsh]
        exact ih6
      · intro u hu h1 h2
        rcases List.mem_cons.mp hu with rfl | hu
        · exact absurd h1 hsh
        · exact ih7 u hu h1 h2

end ArchCommands.Comp

namespace ArchCommands.Comp

theorem toolFold_spec (host : CHost) (l : List CObj) :
    ∀ tool : Option Nat,
      (l.foldl (fun t o => if pathKind host o then some o.id else t) tool = tool
        ∧ ∀ o ∈ l, pathKind host o = false)
      ∨ (∃ o ∈ l, pathKind host o = true
          ∧ l.foldl (fun t o => if pathKind host o then some o.id else t) tool
              = some o.id) := by
  induction l with
  | nil => intro tool; exact Or.inl ⟨rfl, by simp⟩
  | cons o rest ih =>
    intro tool
    cases hpk : pathKind host o with
    | true =>
      rw [List.foldl_cons, if_pos hpk]
      rcases ih (some o.id) with ⟨h, _⟩ | ⟨u, hu, hpku, h⟩
      · exact Or.inr ⟨o, List.mem_cons_self _ _, hpk, h⟩
      · exact Or.inr ⟨u, List.mem_cons_of_mem _ hu, hpku, h⟩
    | false =>
      rw [List.foldl_cons, if_neg (by simp [hpk])]
      rcases ih tool with ⟨h, hall⟩ | ⟨u, hu, hpku, h⟩
      · refine Or.inl ⟨h, ?_⟩
        intro u hu
        rcases List.mem_cons.mp hu with heq | hu
        · rw [heq]; exact hpk
        · exact hall u hu
      · exact Or.inr ⟨u, List.mem_cons_of_mem _ hu, hpku, h⟩

theorem componentTypes_not_groupTypes (t : String)
    (hc : t ∈ componentTypes) : t ∉ groupTypes := by
  intro hg
  simp only [componentTypes, List.mem_cons, List.not_mem_nil, or_false] at hc
  rcases hc with h|h|h|h|h|h|h|h|h|h|h <;> rw [h] at hg <;> simp [groupTypes] at hg

end ArchCommands.Comp

open ArchCommands.Comp in
/-- Claim C6: for a host of type Floor, Building, Site, Project or
BuildingPart, addComponents adds every listed object to the host via
host.addObject; for a host of type Wall, CurtainWall, Structure, Precast,
Window, Roof, Stairs, StructuralSystem, Panel, Component or Pipe, every
shape-bearing object (not already present) ends in host.Additions, except
that a Window receives the host in its own Hosts list, an Axis object ends
in host.Axes, and a valid-path object under a Structure or Precast host
becomes host.Tool. -/
theorem C6_addComponents_dispatch (objectsList : List CObj) (host : CHost) :
    (host.htype ∈ groupTypes →
      addComponents objectsList host =
        .ok ({ host with
          group := host.group ++ objectsList.map (fun o => o.id) },
          objectsList))
    ∧ (host.htype ∈ componentTypes →
        ∀ h2 l2, addComponents objectsList host = .ok (h2, l2) →
          (∀ o ∈ objectsList, o.hasShape = true → o.otype ≠ "Window" →
            o.otype ≠ "Axis" →
            ¬(o.isValidPath = true ∧ host.htype ∈ ["Structure", "Precast"]) →
            o.id ∈ h2.additions)
          ∧ (∀ o ∈ objectsList, o.hasShape = true → o.otype = "Window" →
              ∃ o' ∈ l2, o'.id = o.id ∧ ∀ g, o.hosts = some g →
                ∃ g', o'.hosts = some g' ∧ host.id ∈ g')
          ∧ (∀ o ∈ objectsList, o.hasShape = true → o.otype = "Axis" →
              ¬(o.isValidPath = true ∧ host.htype ∈ ["Structure", "Precast"]) →
              ∃ xs, h2.axes = some xs ∧ o.id ∈ xs)
          ∧ ((∃ o ∈ objectsList, pathKind host o = true) →
              ∃ o ∈ objectsList, pathKind host o = true
                ∧ h2.tool = some o.id)) := by
  constructor
  · intro hg
    simp [addComponents, hg]
  · intro hc h2 l2 haddc
    have hng := componentTypes_not_groupTypes host.htype hc
    rw [addComponents, if_neg hng, if_pos hc] at haddc
    rcases hfr : List.foldlM (addStep host)
        (host.additions, host.axes, host.tool, []) objectsList with e | q
    · rw [hfr] at haddc
      cases haddc
    · obtain ⟨a, x, tool, objs⟩ := q
      rw [hfr] at haddc
      obtain ⟨⟨t1, sp1⟩, sp2, sp3, sp4, sp5, sp6, sp7, sp8⟩ :=
        addFold_spec host objectsList host.additions host.axes host.tool []
          (a, x, tool, objs) hfr
      have hadd : h2.additions = a := by
        cases x <;> { cases haddc; rfl }
      have htool : h2.tool = tool := by
        cases x <;> { cases haddc; rfl }
      have hobjs : l2 = objs.reverse := by
        cases x <;> { cases haddc; rfl }
      refine ⟨?_, ?_, ?_, ?_⟩
      · intro o ho hsh hwin haxis hpath
        rw [hadd]
        exact sp4 o ho hsh hwin haxis hpath
      · intro o ho hsh hwin
        obtain ⟨o', ho', hid, hhosts⟩ := sp7 o ho hsh hwin
        exact ⟨o', by rw [hobjs]; exact List.mem_reverse.mpr ho', hid, hhosts⟩
      · intro o ho hsh haxis hpath
        obtain ⟨xs, hx, hmem⟩ := sp5 o ho hsh haxis hpath
        refine ⟨xs, ?_, hmem⟩
        subst hx
        cases haddc
        rfl
      · intro hex
        rcases toolFold_spec host objectsList host.tool with ⟨_, hall⟩ |
          ⟨u, hu, hpku, hfold⟩
        · obtain ⟨o, ho, hpko⟩ := hex
          rw [hall o ho] at hpko
          cases hpko
        · refine ⟨u, hu, hpku, ?_⟩
          have sp6b : tool = objectsList.foldl
              (fun t o => if pathKind host o then some o.id else t)
              host.tool := sp6
          rw [htool, sp6b]
          exact hfold

open ArchCommands.Comp in
/-- Closed witness for claim C6: a Floor host receives the object through
addObject; a Structure host receives the plain object into Additions and
the window receives the host into its Hosts list. -/
theorem C6_addComponents_dispatch_witness :
    (addComponents [cObjP] cHostFloor =
      .ok (⟨1, "Floor", [], [], none, false, none, [], [10], false⟩, [cObjP]))
    ∧ ((∀ o ∈ [cObjP, cObjW], o.hasShape = true → o.otype ≠ "Window" →
          o.otype ≠ "Axis" →
          ¬(o.isValidPath = true ∧ cHostS.htype ∈ ["Structure", "Precast"]) →
          o.id ∈ cHostS2.additions)
        ∧ (∀ o ∈ [cObjP, cObjW], o.hasShape = true → o.otype = "Window" →
            ∃ o' ∈ [cObjP, cObjW2], o'.id = o.id ∧ ∀ g, o.hosts = some g →
              ∃ g', o'.hosts = some g' ∧ cHostS.id ∈ g')
        ∧ (∀ o ∈ [cObjP, cObjW], o.hasShape = true → o.otype = "Axis" →
            ¬(o.isValidPath = true ∧ cHostS.htype ∈ ["Structure", "Precast"]) →
            ∃ xs, cHostS2.axes = some xs ∧ o.id ∈ xs)
        ∧ ((∃ o ∈ [cObjP, cObjW], pathKind cHostS o = true) →
            ∃ o ∈ [cObjP, cObjW], pathKind cHostS o = true
              ∧ cHostS2.tool = some o.id)) :=
  ⟨(C6_addComponents_dispatch [cObjP] cHostFloor).1 (by decide),
   (C6_addComponents_dispatch [cObjP, cObjW] cHostS).2 (by decide)
     cHostS2 [cObjP, cObjW2] rfl⟩

namespace ArchCommands.Comp

theorem axesFold_sub (l : List CObj) :
    ∀ (curAx : List Nat) (curList : List CObj),
      (∀ o' ∈ (l.foldl axStep (curAx, curList)).2, o' ∈ curList)
      ∧ (∀ i ∈ (l.foldl axStep (curAx, curList)).1, i ∈ curAx) := by
  induction l with
  | nil => intro curAx curList; exact ⟨fun o' h => h, fun i h => h⟩
  | cons u rest ih =>
    intro curAx curList
    rw [List.foldl_cons]
    by_cases hu : u.id ∈ curAx
    · rw [show axStep (curAx, curList) u =
        (curAx.erase u.id, curList.eraseP (fun q => q.id == u.id)) from by
          simp [axStep, hu]]
      obtain ⟨ih1, ih2⟩ := ih (curAx.erase u.id)
        (curList.eraseP (fun q => q.id == u.id))
      refine ⟨fun o' h => ?_, fun i h => ?_⟩
      · exact List.mem_of_mem_eraseP (ih1 o' h)
      · exact List.mem_of_mem_erase (ih2 i h)
    · rw [show axStep (curAx, curList) u = (curAx, curList) from by
        simp [axStep, hu]]
      exact ih curAx curList

theorem axesFold_keep (l : List CObj) :
    ∀ (curAx : List Nat) (curList : List CObj) (o : CObj),
      o.id ∉ curAx → o ∈ curList →
      o ∈ (l.foldl axStep (curAx, curList)).2
      ∧ o.id ∉ (l.foldl axStep (curAx, curList)).1 := by
  induction l with
  | nil => intro curAx curList o h1 h2; exact ⟨h2, h1⟩
  | cons u rest ih =>
    intro curAx curList o h1 h2
    rw [List.foldl_cons]
    by_cases hu : u.id ∈ curAx
    · rw [show axStep (curAx, curList) u =
        (curAx.erase u.id, curList.eraseP (fun q => q.id == u.id)) from by
          simp [axStep, hu]]
      have hne : o.id ≠ u.id := fun he => h1 (he ▸ hu)
      refine ih _ _ o ?_ ?_
      · intro hin
        exact h1 (List.mem_of_mem_erase hin)
      · refine (List.mem_eraseP_of_neg ?_).mpr h2
        simp [hne]
    · rw [show axStep (curAx, curList) u = (curAx, curList) from by
        simp [axStep, hu]]
      exact ih curAx curList o h1 h2

theorem not_mem_eraseP_unique (o : CObj) (l : List CObj)
    (hnd : l.Nodup) (huniq : ∀ q ∈ l, q.id = o.id → q = o) :
    o ∉ l.eraseP (fun q => q.id == o.id) := by
  induction l with
  | nil => simp
  | cons q rest ih =>
    by_cases hq : q.id = o.id
    · rw [List.eraseP_cons_of_pos (by simp [hq])]
      have hqo : q = o := huniq q (List.mem_cons_self _ _) hq
      subst hqo
      exact (List.nodup_cons.mp hnd).1
    · rw [List.eraseP_cons_of_neg (by simp [hq])]
      intro hmem
      rcases List.mem_cons.mp hmem with heq | hmem2
      · exact hq (by rw [heq])
      · exact ih (List.nodup_cons.mp hnd).2
          (fun q2 hq2 => huniq q2 (List.mem_cons_of_mem _ hq2)) hmem2

theorem axesFold_remove (l : List CObj) :
    ∀ (curAx : List Nat) (curList : List CObj) (o : CObj),
      o ∈ l → o.id ∈ curAx → curAx.Nodup → curList.Nodup →
      (∀ u ∈ l, u ≠ o → u.id ≠ o.id) →
      (∀ q ∈ curList, q.id = o.id → q = o) →
      o ∉ (l.foldl axStep (curAx, curList)).2
      ∧ o.id ∉ (l.foldl axStep (curAx, curList)).1 := by
  induction l with
  | nil => intro _ _ _ h; cases h
  | cons u rest ih =>
    intro curAx curList o hol hax hndax hndl hids huniq
    rw [List.foldl_cons]
    by_cases heq : u = o
    · subst heq
      rw [show axStep (curAx, curList) u =
        (curAx.erase u.id, curList.eraseP (fun q => q.id == u.id)) from by
          simp [axStep, hax]]
      obtain ⟨hs1, hs2⟩ := axesFold_sub rest (curAx.erase u.id)
        (curList.eraseP (fun q => q.id == u.id))
      constructor
      · intro hmem
        exact not_mem_eraseP_unique u curList hndl huniq (hs1 u hmem)
      · intro hmem
        exact (List.Nodup.not_mem_erase hndax) (hs2 u.id hmem)
    · have hune : u.id ≠ o.id := hids u (List.mem_cons_self _ _) heq
      have hol2 : o ∈ rest := by
        rcases List.mem_cons.mp hol with h | h
        · exact absurd h.symm heq
        · exact h
      by_cases hu : u.id ∈ curAx
      · rw [show axStep (curAx, curList) u =
          (curAx.erase u.id, curList.eraseP (fun q => q.id == u.id)) from by
            simp [axStep, hu]]
        refine ih _ _ o hol2 ?_ ?_ ?_ ?_ ?_
        · exact List.mem_erase_of_ne (fun h => hune h.symm) |>.mpr hax
        · exact List.Nodup.erase _ hndax
        · exact List.Nodup.sublist (List.eraseP_sublist _) hndl
        · exact fun v hv => hids v (List.mem_cons_of_mem _ hv)
        · exact fun q hq => huniq q (List.mem_of_mem_eraseP hq)
      · rw [show axStep (curAx, curList) u = (curAx, curList) from by
          simp [axStep, hu]]
        exact ih _ _ o hol2 hax hndax hndl
          (fun v hv => hids v (List.mem_cons_of_mem _ hv)) huniq

end ArchCommands.Comp

namespace ArchCommands.Comp

theorem rmFold_spec (host : CHost) (l : List CObj) :
    ∀ (s : List Nat) (objs : List CObj),
      (∃ t, (l.foldl (rmStep host) (s, objs)).1 = s ++ t
        ∧ ∀ i ∈ t, ∃ o ∈ l, i = o.id ∧ o.otype ≠ "Window")
      ∧ (∀ o ∈ l, o.otype ≠ "Window" →
          o.id ∈ (l.foldl (rmStep host) (s, objs)).1)
      ∧ (∀ o ∈ l, o.otype = "Window" →
          ∃ o', o' ∈ (l.foldl (rmStep host) (s, objs)).2 ∧ o'.id = o.id
            ∧ ∀ g, o.hosts = some g → ∃ g', o'.hosts = some g' ∧ host.id ∈ g')
      ∧ (∀ o' ∈ objs, o' ∈ (l.foldl (rmStep host) (s, objs)).2) := by
  induction l with
  | nil =>
    intro s objs
    exact ⟨⟨[], by simp, by simp⟩, by simp, by simp, fun o' h => h⟩
  | cons o rest ih =>
    intro s objs
    rw [List.foldl_cons]
    by_cases hwin : o.otype = "Window"
    · rcases hho : o.hosts with _ | g
      · rw [show rmStep host (s, objs) o = (s, o :: objs) from by
          simp [rmStep, hwin, hho]]
        obtain ⟨ih1, ih2, ih3, ih4⟩ := ih s (o :: objs)
        refine ⟨?_, ?_, ?_, fun o' h => ih4 o' (List.mem_cons_of_mem _ h)⟩
        · obtain ⟨t, ht, hti⟩ := ih1
          exact ⟨t, ht, fun i hi => by
            obtain ⟨u, hu, hui, huw⟩ := hti i hi
            exact ⟨u, List.mem_cons_of_mem _ hu, hui, huw⟩⟩
        · intro u hu h1
          rcases List.mem_cons.mp hu with heq | hu
          · exact absurd (by rw [heq]; exact hwin) h1
          · exact ih2 u hu h1
        · intro u hu h1
          rcases List.mem_cons.mp hu with heq | hu
          · subst heq
            exact ⟨u, ih4 u (List.mem_cons_self _ _), rfl,
              fun g hg => by rw [hho] at hg; cases hg⟩
          · exact ih3 u hu h1
      · by_cases hhin : host.id ∈ g
        · rw [show rmStep host (s, objs) o = (s, o :: objs) from by
            simp [rmStep, hwin, hho, hhin]]
          obtain ⟨ih1, ih2, ih3, ih4⟩ := ih s (o :: objs)
          refine ⟨?_, ?_, ?_, fun o' h => ih4 o' (List.mem_cons_of_mem _ h)⟩
          · obtain ⟨t, ht, hti⟩ := ih1
            exact ⟨t, ht, fun i hi => by
              obtain ⟨u, hu, hui, huw⟩ := hti i hi
              exact ⟨u, List.mem_cons_of_mem _ hu, hui, huw⟩⟩
          · intro u hu h1
            rcases List.mem_cons.mp hu with heq | hu
            · exact absurd (by rw [heq]; exact hwin) h1
            · exact ih2 u hu h1
          · intro u hu h1
            rcases List.mem_cons.mp hu with heq | hu
            · subst heq
              refine ⟨u, ih4 u (List.mem_cons_self _ _), rfl, ?_⟩
              intro g2 hg2
              rw [hho] at hg2
              cases hg2
              exact ⟨g, hho, hhin⟩
            · exact ih3 u hu h1
        · rw [show rmStep host (s, objs) o =
            (s, { o with hosts := some (g ++ [host.id]) } :: objs) from by
              simp [rmStep, hwin, hho, hhin]]
          obtain ⟨ih1, ih2, ih3, ih4⟩ := ih s
            ({ o with hosts := some (g ++ [host.id]) } :: objs)
          refine ⟨?_, ?_, ?_, fun o' h => ih4 o' (List.mem_cons_of_mem _ h)⟩
          · obtain ⟨t, ht, hti⟩ := ih1
            exact ⟨t, ht, fun i hi => by
              obtain ⟨u, hu, hui, huw⟩ := hti i hi
              exact ⟨u, List.mem_cons_of_mem _ hu, hui, huw⟩⟩
          · intro u hu h1
            rcases List.mem_cons.mp hu with heq | hu
            · exact absurd (by rw [heq]; exact hwin) h1
            · exact ih2 u hu h1
          · intro u hu h1
            rcases List.mem_cons.mp hu with heq | hu
            · subst heq
              exact ⟨{ u with hosts := some (g ++ [host.id]) },
                ih4 _ (List.mem_cons_self _ _), rfl,
                fun g2 hg2 => ⟨g ++ [host.id], rfl, by simp⟩⟩
            · exact ih3 u hu h1
    · by_cases hins : o.id ∈ s
      · rw [show rmStep host (s, objs) o = (s, o :: objs) from by
          simp [rmStep, hwin, hins]]
        obtain ⟨ih1, ih2, ih3, ih4⟩ := ih s (o :: objs)
        refine ⟨?_, ?_, ?_, fun o' h => ih4 o' (List.mem_cons_of_mem _ h)⟩
        · obtain ⟨t, ht, hti⟩ := ih1
          exact ⟨t, ht, fun i hi => by
            obtain ⟨u, hu, hui, huw⟩ := hti i hi
            exact ⟨u, List.mem_cons_of_mem _ hu, hui, huw⟩⟩
        · intro u hu h1
          rcases List.mem_cons.mp hu with heq | hu
          · obtain ⟨t, ht, _⟩ := ih1
            rw [ht]
            exact List.mem_append_left _ (by rw [heq]; exact hins)
          · exact ih2 u hu h1
        · intro u hu h1
          rcases List.mem_cons.mp hu with heq | hu
          · exact absurd (heq ▸ h1) hwin
          · exact ih3 u hu h1
      · rw [show rmStep host (s, objs) o =
          (s ++ [o.id],
           (match (if o.attachmentSupport = some host.id
              then { o with attachmentSupport := none } else o).baseSupport with
            | some bs => if bs = some host.id
                then { (if o.attachmentSupport = some host.id
                    then { o with attachmentSupport := none } else o) with
                    baseSupport := some none }
                else (if o.attachmentSupport = some host.id
                  then { o with attachmentSupport := none } else o)
            | none => (if o.attachmentSupport = some host.id
                then { o with attachmentSupport := none } else o)) :: objs)
            from by simp only [rmStep, hwin, hins]; rfl]
        obtain ⟨ih1, ih2, ih3, ih4⟩ := ih (s ++ [o.id]) _
        refine ⟨?_, ?_, ?_, fun o' h => ih4 o' (List.mem_cons_of_mem _ h)⟩
        · obtain ⟨t, ht, hti⟩ := ih1
          refine ⟨[o.id] ++ t, by simpa using ht, ?_⟩
          intro i hi
          rcases List.mem_append.mp hi with hi | hi
          · rw [List.mem_singleton.mp hi]
            exact ⟨o, List.mem_cons_self _ _, rfl, hwin⟩
          · obtain ⟨u, hu, hui, huw⟩ := hti i hi
            exact ⟨u, List.mem_cons_of_mem _ hu, hui, huw⟩
        · intro u hu h1
          rcases List.mem_cons.mp hu with heq | hu
          · obtain ⟨t, ht, _⟩ := ih1
            rw [ht]
            refine List.mem_append_left _ ?_
            rw [heq]
            simp
          · exact ih2 u hu h1
        · intro u hu h1
          rcases List.mem_cons.mp hu with heq | hu
          · exact absurd (heq ▸ h1) hwin
          · exact ih3 u hu h1

end ArchCommands.Comp

namespace ArchCommands.Comp

theorem removeComponents_ok_char (objectsList : List CObj) (host : CHost)
    (h2 : CHost) (l2 : List CObj) (hc : host.htype ∈ componentTypes)
    (hres : removeComponents objectsList host = .ok (h2, l2)) :
    ∃ tool1 kept,
      ((host.axes = none ∧ kept = objectsList)
        ∨ (∃ ax, host.axes = some ax
            ∧ kept = (axesFilter ax objectsList).2))
      ∧ h2 = { host with tool := tool1, subtractions := (kept.foldl (rmStep host) (host.subtractions, [])).1 }
      ∧ l2 = (kept.foldl (rmStep host) (host.subtractions, [])).2.reverse
      ∧ (host.hasToolAttr = true →
          ∀ o0 rest0, objectsList = o0 :: rest0 →
            tool1 = if host.tool = some o0.id then none else host.tool)
      ∧ (host.hasToolAttr = false → tool1 = host.tool) := by
  rw [removeComponents.eq_def, if_pos hc] at hres
  by_cases hta : host.hasToolAttr = true
  · cases objectsList with
    | nil =>
      rw [if_pos hta] at hres
      have hres2 : (Except.error () :
          Except Unit (CHost × List CObj)) = Except.ok (h2, l2) := hres
      cases hres2
    | cons o0 rest0 =>
      rw [if_pos hta] at hres
      rcases hax : host.axes with _ | ax
      · rw [hax] at hres
        have hres2 : Except.ok
            (({ host with tool := if host.tool = some o0.id then none else host.tool, axes := none, subtractions := ((o0 :: rest0).foldl (rmStep host) (host.subtractions, [])).1 } : CHost),
             ((o0 :: rest0).foldl (rmStep host)
               (host.subtractions, [])).2.reverse) = Except.ok (h2, l2) := hres
        injection hres2 with hq
        injection hq with ha hb
        refine ⟨if host.tool = some o0.id then none else host.tool,
          o0 :: rest0, Or.inl ⟨rfl, rfl⟩, ha.symm, hb.symm, ?_, ?_⟩
        · intro _ o1 r1 heq
          injection heq with h1 h2
          rw [h1]
        · intro htaf
          rw [hta] at htaf
          cases htaf
      · rw [hax] at hres
        have hres2 : Except.ok
            (({ host with tool := if host.tool = some o0.id then none else host.tool, axes := some ax, subtractions := ((axesFilter ax (o0 :: rest0)).2.foldl (rmStep host) (host.subtractions, [])).1 } : CHost),
             ((axesFilter ax (o0 :: rest0)).2.foldl (rmStep host)
               (host.subtractions, [])).2.reverse) = Except.ok (h2, l2) := hres
        injection hres2 with hq
        injection hq with ha hb
        refine ⟨if host.tool = some o0.id then none else host.tool,
          (axesFilter ax (o0 :: rest0)).2,
          Or.inr ⟨ax, rfl, rfl⟩, ha.symm, hb.symm, ?_, ?_⟩
        · intro _ o1 r1 heq
          injection heq with h1 h2
          rw [h1]
        · intro htaf
          rw [hta] at htaf
          cases htaf
  · have hta2 : host.hasToolAttr = false := by
      cases hb : host.hasToolAttr
      · rfl
      · exact absurd hb hta
    rw [if_neg hta] at hres
    rcases hax : host.axes with _ | ax
    · rw [hax] at hres
      have hres2 : Except.ok
          (({ host with tool := host.tool, axes := none, subtractions := (objectsList.foldl (rmStep host) (host.subtractions, [])).1 } : CHost),
           (objectsList.foldl (rmStep host)
             (host.subtractions, [])).2.reverse) = Except.ok (h2, l2) := hres
      injection hres2 with hq
      injection hq with ha hb
      exact ⟨host.tool, objectsList, Or.inl ⟨rfl, rfl⟩, ha.symm, hb.symm,
        fun h => absurd h hta, fun _ => rfl⟩
    · rw [hax] at hres
      have hres2 : Except.ok
          (({ host with tool := host.tool, axes := some ax, subtractions := ((axesFilter ax objectsList).2.foldl (rmStep host) (host.subtractions, [])).1 } : CHost),
           ((axesFilter ax objectsList).2.foldl (rmStep host)
             (host.subtractions, [])).2.reverse) = Except.ok (h2, l2) := hres
      injection hres2 with hq
      injection hq with ha hb
      exact ⟨host.tool, (axesFilter ax objectsList).2,
        Or.inr ⟨ax, rfl, rfl⟩, ha.symm, hb.symm,
        fun h => absurd h hta, fun _ => rfl⟩

end ArchCommands.Comp

open ArchCommands.Comp in
/-- Claim C7, settled as a code bug: for a host of type Wall, CurtainWall,
Structure, Precast, Window, Roof, Stairs, StructuralSystem, Panel,
Component or Pipe, removeComponents clears the Tool when the first listed
object is the Tool, appends every listed non-Window object not found in
host.Axes to host.Subtractions, gives a Window the host in its own Hosts
list instead, and keeps objects found in host.Axes out of Subtractions —
but it does not remove them from host.Axes: the source filters only a
local copy of the Axes list and never reassigns the property, so the
returned host's axes equal the input host's axes (first conjunct),
against the claim's removal clause. -/
theorem C7_removeComponents_axes_unchanged (objectsList : List CObj)
    (host : CHost) (h2 : CHost) (l2 : List CObj)
    (hc : host.htype ∈ componentTypes)
    (hres : removeComponents objectsList host = .ok (h2, l2)) :
    h2.axes = host.axes
    ∧ (∀ o0 rest0, objectsList = o0 :: rest0 → host.hasToolAttr = true →
      host.tool = some o0.id → h2.tool = none)
    ∧ (∀ o ∈ objectsList, o.otype ≠ "Window" →
        (∀ ax, host.axes = some ax → o.id ∉ ax) →
        o.id ∈ h2.subtractions)
    ∧ (∀ o ∈ objectsList, o.otype = "Window" →
        (∀ ax, host.axes = some ax → o.id ∉ ax) →
        ∃ o' ∈ l2, o'.id = o.id ∧ ∀ g, o.hosts = some g →
          ∃ g', o'.hosts = some g' ∧ host.id ∈ g')
    ∧ ((objectsList.map (fun o => o.id)).Nodup →
        ∀ o ∈ objectsList, ∀ ax, host.axes = some ax → ax.Nodup → o.id ∈ ax →
          o.id ∉ host.subtractions → o.id ∉ h2.subtractions) := by
  obtain ⟨tool1, kept, hcase, hh2, hl2, htool, _⟩ :=
    removeComponents_ok_char objectsList host h2 l2 hc hres
  refine ⟨by rw [hh2], ?_, ?_, ?_, ?_⟩
  · intro o0 rest0 heq hta htl
    have ht1 : tool1 = none := by
      rw [htool hta o0 rest0 heq, if_pos htl]
    rw [hh2, ht1]
  · intro o ho hw hnotax
    rcases hcase with ⟨haxn, hkept⟩ | ⟨ax, haxs, hkept⟩
    · obtain ⟨_, f2, _, _⟩ := rmFold_spec host kept host.subtractions []
      rw [hh2]
      exact f2 o (by rw [hkept]; exact ho) hw
    · have hkeep := (axesFold_keep objectsList ax objectsList o
        (hnotax ax haxs) ho).1
      obtain ⟨_, f2, _, _⟩ := rmFold_spec host kept host.subtractions []
      rw [hh2]
      exact f2 o (by rw [hkept]; exact hkeep) hw
  · intro o ho hw hnotax
    rcases hcase with ⟨haxn, hkept⟩ | ⟨ax, haxs, hkept⟩
    · obtain ⟨_, _, f3, _⟩ := rmFold_spec host kept host.subtractions []
      obtain ⟨o', ho', hid, hhosts⟩ := f3 o (by rw [hkept]; exact ho) hw
      exact ⟨o', by rw [hl2]; exact List.mem_reverse.mpr ho', hid, hhosts⟩
    · have hkeep := (axesFold_keep objectsList ax objectsList o
        (hnotax ax haxs) ho).1
      obtain ⟨_, _, f3, _⟩ := rmFold_spec host kept host.subtractions []
      obtain ⟨o', ho', hid, hhosts⟩ := f3 o (by rw [hkept]; exact hkeep) hw
      exact ⟨o', by rw [hl2]; exact List.mem_reverse.mpr ho', hid, hhosts⟩
  · intro hnd o ho ax haxs hndax hoin hnots
    rcases hcase with ⟨haxn, _⟩ | ⟨ax2, haxs2, hkept⟩
    · rw [haxn] at haxs
      cases haxs
    · have hax2 : ax2 = ax := by
        rw [haxs2] at haxs
        injection haxs
      subst hax2
      have hinj : ∀ u ∈ objectsList, ∀ v ∈ objectsList, u.id = v.id → u = v :=
        fun u hu v hv huv => List.inj_on_of_nodup_map hnd hu hv huv
      have hrem := axesFold_remove objectsList ax2 objectsList o ho hoin hndax
        (List.Nodup.of_map _ hnd)
        (fun u hu hne => fun hid => hne (hinj u hu o ho hid))
        (fun q hq hid => hinj q hq o ho hid)
      rw [hh2]
      obtain ⟨⟨t, ht, hti⟩, _, _, _⟩ :=
        rmFold_spec host kept host.subtractions []
      show o.id ∉ (List.foldl (rmStep host) (host.subtractions, []) kept).1
      rw [ht]
      intro hmem
      rcases List.mem_append.mp hmem with hmem | hmem
      · exact hnots hmem
      · obtain ⟨u, hu, hui, _⟩ := hti o.id hmem
        have huo : u ∈ objectsList := by
          have := (axesFold_sub objectsList ax2 objectsList).1 u
            (hkept ▸ hu)
          exact this
        have : u = o := hinj u huo o ho hui.symm
        rw [this] at hu
        rw [hkept] at hu
        exact hrem.1 hu

open ArchCommands.Comp in
/-- Closed witness for claim C7: on a Wall host whose Tool is the first
listed object and whose Axes contain the third, the Tool is cleared, the
plain object enters Subtractions, the window receives the host in its
Hosts list, the axis-listed object stays out of Subtractions, and the
host's Axes come back unchanged. -/
theorem C7_removeComponents_axes_unchanged_witness :
    cHostR2.axes = cHostR.axes
    ∧ (∀ o0 rest0, [cObjP, cObjW, cObjA] = o0 :: rest0 →
      cHostR.hasToolAttr = true → cHostR.tool = some o0.id →
      cHostR2.tool = none)
    ∧ (∀ o ∈ [cObjP, cObjW, cObjA], o.otype ≠ "Window" →
        (∀ ax, cHostR.axes = some ax → o.id ∉ ax) →
        o.id ∈ cHostR2.subtractions)
    ∧ (∀ o ∈ [cObjP, cObjW, cObjA], o.otype = "Window" →
        (∀ ax, cHostR.axes = some ax → o.id ∉ ax) →
        ∃ o' ∈ [cObjP, cObjW2], o'.id = o.id ∧ ∀ g, o.hosts = some g →
          ∃ g', o'.hosts = some g' ∧ cHostR.id ∈ g')
    ∧ (([cObjP, cObjW, cObjA].map (fun o => o.id)).Nodup →
        ∀ o ∈ [cObjP, cObjW, cObjA], ∀ ax, cHostR.axes = some ax →
          ax.Nodup → o.id ∈ ax →
          o.id ∉ cHostR.subtractions → o.id ∉ cHostR2.subtractions) :=
  C7_removeComponents_axes_unchanged [cObjP, cObjW, cObjA] cHostR cHostR2
    [cObjP, cObjW2] (by decide) rfl

open ArchCommands.Comp in
/-- Concrete divergence for claim C7: removeComponents on a Wall host
whose Axes list the third listed object succeeds, keeps that object out
of Subtractions, yet returns the host with Axes still holding the
object's id — the object is not removed from host.Axes as the claim
states, because the filtered local copy is never written back to the
property. -/
theorem C7_removeComponents_counterexample :
    removeComponents [cObjP, cObjW, cObjA] cHostR
      = .ok (cHostR2, [cObjP, cObjW2])
    ∧ cObjA ∈ [cObjP, cObjW, cObjA] ∧ cHostR.axes = some [cObjA.id]
    ∧ cHostR2.axes = some [cObjA.id]
    ∧ cObjA.id ∉ cHostR2.subtractions :=
  ⟨rfl, by decide, rfl, rfl, by decide⟩
